import Mathlib

/-!
Verification of the parse-and-analyze pipeline of the fhir-ndjson-visualizer
repository: the NDJSON line parser (src/utils/ndjsonParser.ts), the patient
analyzer (src/utils/patientAnalytics.ts) and the encounter analyzer
(encounterAnalytics module).

Modelling conventions:
* JavaScript numbers are modelled exactly, as unnormalized integer fractions
  (`JNum`, numerator/denominator with a nonnegative denominator); `Infinity`
  is the fraction 1/0.  Floating-point rounding of `+ - * /` is abstracted
  away, which is harmless at the granularity of the claims checked here.
* Host functions of the browser runtime (`JSON.parse`, `new Date(...)`,
  `performance.now()`, `toLocaleDateString`) are parameters of the embedding
  (`JsEnv`), so every theorem quantifies over the host behaviour.
* JavaScript strings are Lean strings; `split`, `trim`, `substring`,
  `padStart` and `startsWith` are re-implemented over the character list so
  that concrete runs reduce inside the kernel.
-/

namespace FhirViz

/-! ## Exact model of JavaScript numbers -/

/-- A JavaScript number modelled as an exact (unnormalized) fraction
`num / den`.  All constructions used by the embedded code keep `den`
nonnegative; `den = 0` with `num = 1` models `Infinity`. -/
structure JNum where
  num : Int
  den : Int
  deriving Repr, DecidableEq

/-- Embed a natural number. -/
def JNum.ofNat (n : Nat) : JNum := ⟨n, 1⟩

/-- Embed an integer. -/
def JNum.ofInt (i : Int) : JNum := ⟨i, 1⟩

/-- The JavaScript value `Infinity`. -/
def JNum.inf : JNum := ⟨1, 0⟩

/-- Addition of fractions (no normalization). -/
def JNum.add (a b : JNum) : JNum := ⟨a.num * b.den + b.num * a.den, a.den * b.den⟩

/-- Subtraction of fractions. -/
def JNum.sub (a b : JNum) : JNum := ⟨a.num * b.den - b.num * a.den, a.den * b.den⟩

/-- Multiplication of fractions. -/
def JNum.mul (a b : JNum) : JNum := ⟨a.num * b.num, a.den * b.den⟩

/-- Division of fractions; the sign is moved into the numerator so that the
denominator stays nonnegative. -/
def JNum.div (a b : JNum) : JNum :=
  if b.num < 0 then ⟨-(a.num * b.den), -(a.den * b.num)⟩ else ⟨a.num * b.den, a.den * b.num⟩

/-- Absolute value. -/
def JNum.abs (a : JNum) : JNum := ⟨|a.num|, a.den⟩

/-- Comparison `a <= b` by cross multiplication (valid for nonnegative
denominators, which all embedded computations maintain). -/
def JNum.leB (a b : JNum) : Bool := decide (a.num * b.den ≤ b.num * a.den)

/-- Strict comparison `a < b` by cross multiplication. -/
def JNum.ltB (a b : JNum) : Bool := decide (a.num * b.den < b.num * a.den)

/-- JavaScript numeric equality `a === b` by cross multiplication. -/
def JNum.eqB (a b : JNum) : Bool := decide (a.num * b.den = b.num * a.den)

/-- The rational value denoted by a `JNum` (denominator 0 maps to 0). -/
def JNum.toRat (a : JNum) : ℚ := (a.num : ℚ) / (a.den : ℚ)

/-- `Math.round`, which rounds halves towards positive infinity:
`round x = ⌊x + 1/2⌋`, computed on the fraction by floor division. -/
def JNum.jsRound (a : JNum) : Int := Int.fdiv (2 * a.num + a.den) (2 * a.den)

/-- `Math.round(x * 10) / 10` — rounding to one decimal place, as used by
the statistics helpers. -/
def JNum.roundTenth (a : JNum) : JNum := ⟨(a.mul (JNum.ofNat 10)).jsRound, 10⟩

/-- Search for the least `k` with `4 n < d (2 k + 1)^2`, that is, for
`round (sqrt (n / d))` with halves rounded up.  The fuel argument makes the
search structurally recursive. -/
def roundSqrtAux (n d : Int) : Nat → Nat → Nat
  | 0, k => k
  | fuel + 1, k =>
    if 4 * n < d * (2 * k + 1) * (2 * k + 1) then k else roundSqrtAux n d fuel (k + 1)

/-- Exact model of `Math.round(Math.sqrt x * 10) / 10` for a nonnegative
fraction `x`: the numerator of the result is the integer nearest to
`sqrt (100 x)` (halves up), the denominator is 10. -/
def JNum.sqrtRoundTenth (x : JNum) : JNum :=
  let y := x.mul (JNum.ofNat 100)
  if y.num ≤ 0 ∨ y.den ≤ 0 then ⟨0, 10⟩
  else ⟨roundSqrtAux y.num y.den (y.num.toNat + 2) 0, 10⟩

/-! ## JavaScript strings and values -/

/-- `s.split(c)` re-implemented on character lists (structurally recursive,
so it reduces in the kernel; `String.splitOn` does not). -/
def splitCh (c : Char) : List Char → List (List Char)
  | [] => [[]]
  | x :: xs =>
    let r := splitCh c xs
    if x = c then [] :: r
    else
      match r with
      | [] => [[x]]
      | y :: ys => (x :: y) :: ys

/-- `input.split('\n')`. -/
def jsSplitNl (s : String) : List String := (splitCh '\n' s.data).map String.mk

/-- `s.trim()` — drop leading and trailing whitespace. -/
def jsTrim (s : String) : String :=
  String.mk (((s.data.dropWhile Char.isWhitespace).reverse.dropWhile Char.isWhitespace).reverse)

/-- Truthiness of an optional JavaScript string: `undefined`, `null` and the
empty string are falsy. -/
def optTruthy : Option String → Bool
  | none => false
  | some s => !s.data.isEmpty

/-- Decimal digits of a natural number. -/
def natChars (n : Nat) : List Char := Nat.toDigits 10 n

/-- Decimal rendering of an integer. -/
def intChars (i : Int) : List Char :=
  if i < 0 then '-' :: natChars i.natAbs else natChars i.toNat

/-- `s.padStart(2, '0')` on a character list. -/
def pad2 (l : List Char) : List Char :=
  if l.length < 2 then List.replicate (2 - l.length) '0' ++ l else l

/-- Lexicographic comparison of character lists by code point; this is what
`localeCompare` computes on the ASCII month keys sorted by the encounter
analyzer. -/
def lexLe : List Char → List Char → Bool
  | [], _ => true
  | _ :: _, [] => false
  | a :: as, b :: bs =>
    if a.toNat < b.toNat then true
    else if b.toNat < a.toNat then false
    else lexLe as bs

/-- String comparison used for ascending month-key sorting. -/
def strLeB (a b : String) : Bool := lexLe a.data b.data

/-- JavaScript runtime values as produced by `JSON.parse`, plus `undefined`
for absent properties. -/
inductive JsValue where
  | undefined
  | null
  | bool (b : Bool)
  | num (q : JNum)
  | str (s : String)
  | arr (elems : List JsValue)
  | obj (fields : List (String × JsValue))
  deriving Repr

/-- JavaScript truthiness. -/
def JsValue.truthy : JsValue → Bool
  | .undefined => false
  | .null => false
  | .bool b => b
  | .num q => decide (q.num ≠ 0)
  | .str s => !s.data.isEmpty
  | .arr _ => true
  | .obj _ => true

/-- Does `typeof v` evaluate to the string `object`?  (It does for `null`,
arrays and objects.) -/
def JsValue.isObjLike : JsValue → Bool
  | .null => true
  | .arr _ => true
  | .obj _ => true
  | _ => false

/-- Property lookup on an object literal; with duplicate keys the last one
wins, as in `JSON.parse`.  Any other receiver yields `undefined`. -/
def jsGetFields (fields : List (String × JsValue)) (k : String) : JsValue :=
  match fields with
  | [] => .undefined
  | (k1, v) :: rest =>
    match jsGetFields rest k with
    | .undefined => if k1 = k then v else .undefined
    | w => w

/-- `v.k` — property access. -/
def jsGet (v : JsValue) (k : String) : JsValue :=
  match v with
  | .obj fields => jsGetFields fields k
  | _ => .undefined

/-- JavaScript strict equality `===` as used on `resourceType` values.
Primitives compare by value; objects and arrays compare by reference, and
the two operands of every `===` in the parser come from distinct
`JSON.parse` invocations, so distinct references — the comparison is then
always false. -/
def jsStrictEq : JsValue → JsValue → Bool
  | .undefined, .undefined => true
  | .null, .null => true
  | .bool a, .bool b => a = b
  | .num a, .num b => a.eqB b
  | .str a, .str b => a = b
  | _, _ => false

/-- String interpolation `${v}` of a runtime value inside a template
literal.  Rendering of numbers and arrays is abstracted (no claim inspects
those message texts). -/
def JsValue.templateStr : JsValue → String
  | .undefined => "undefined"
  | .null => "null"
  | .bool b => if b then "true" else "false"
  | .num q => String.mk (intChars q.num)
  | .str s => s
  | .arr _ => "[array]"
  | .obj _ => "[object Object]"

/-! ## Insertion-order counting maps and the stable array sort -/

/-- The insertion-ordered `Map<string, number>` counters used by both
analyzers: an association list, first occurrence of a key is its position. -/
abbrev CountMap := List (String × Nat)

/-- `m.set(k, (m.get(k) || 0) + 1)` — increment a counter, appending the key
on first occurrence. -/
def CountMap.bump : CountMap → String → CountMap
  | [], k => [(k, 1)]
  | (k1, c) :: rest, k =>
    if k1 = k then (k1, c + 1) :: rest else (k1, c) :: CountMap.bump rest k

/-- Value stored for a key (0 when absent). -/
def CountMap.countOf : CountMap → String → Nat
  | [], _ => 0
  | (k1, c) :: rest, k => if k1 = k then c else CountMap.countOf rest k

/-- Insert into a sorted list, before the first element that does not have
to precede `x`; keeps equal elements in their original order. -/
def insertLe (le : α → α → Bool) (x : α) : List α → List α
  | [] => [x]
  | y :: ys => if le x y then x :: y :: ys else y :: insertLe le x ys

/-- Stable sort with a boolean `<=`-style comparator — the behaviour of
`Array.prototype.sort` with a consistent comparator (stable per the
ECMAScript specification). -/
def jsSort (le : α → α → Bool) : List α → List α
  | [] => []
  | x :: xs => insertLe le x (jsSort le xs)

/-- Size of `new Set(l)` for a list of strings. -/
def jsSetSize (l : List String) : Nat := l.eraseDups.length

/-! ## The NDJSON line parser (src/utils/ndjsonParser.ts) -/

/-- Truncation cap for raw lines quoted in error messages
(`MAX_ERROR_LINE_LENGTH`). -/
def MAX_ERROR_LINE_LENGTH : Nat := 100

/-- Cap on stored per-line errors (`MAX_ERRORS_STORED`). -/
def MAX_ERRORS_STORED : Nat := 50

/-- One entry of `ParseResult.errors` (type `ParseError`). -/
structure ParseError where
  lineNumber : Nat
  message : String
  rawLine : Option String
  deriving Repr, DecidableEq

/-- The record returned by `parseNdjson` (type `ParseResult`).  The
`resourceType` field is kept as a runtime value: the source annotates it as
`string` but stores whatever the first valid record carried. -/
structure ParseResult where
  resources : List JsValue
  resourceType : JsValue
  pseudoFileName : String
  totalLines : Nat
  validLines : Nat
  invalidLines : Nat
  errors : List ParseError
  parseTimeMs : JNum
  deriving Repr

/-- The body of the `try` block for one trimmed non-blank line:
`JSON.parse` (a host function, here a parameter), then the two validation
checks that throw `Parsed value is not an object` and
`Missing resourceType field`. -/
def decodeLine (jsonParse : String → Except String JsValue) (line : String) :
    Except String JsValue :=
  match jsonParse line with
  | .error m => .error m
  | .ok parsed =>
    if !(parsed.truthy && parsed.isObjLike) then .error "Parsed value is not an object"
    else if !(jsGet parsed "resourceType").truthy then .error "Missing resourceType field"
    else .ok parsed

/-- `line.length > 100 ? line.substring(0, 100) + '...' : line`. -/
def truncateRaw (line : String) : String :=
  if MAX_ERROR_LINE_LENGTH < line.data.length
  then String.mk (line.data.take MAX_ERROR_LINE_LENGTH) ++ "..."
  else line

/-- The mutable local state of the parsing loop of `parseNdjson`. -/
structure PState where
  resources : List JsValue
  errors : List ParseError
  detected : Option JsValue
  mismatchCount : Nat
  validLines : Nat
  invalidLines : Nat
  deriving Repr

/-- Loop state before the first iteration. -/
def initPState : PState := ⟨[], [], none, 0, 0, 0⟩

/-- One iteration of the `for` loop of `parseNdjson` over the 0-based line
index and the raw line. -/
def lineStep (jsonParse : String → Except String JsValue) (st : PState)
    (idxLine : Nat × String) : PState :=
  let line := jsTrim idxLine.2
  let lineNumber := idxLine.1 + 1
  if line = "" then st
  else
    match decodeLine jsonParse line with
    | .ok parsed =>
      let st1 :=
        match st.detected with
        | none => { st with detected := some (jsGet parsed "resourceType") }
        | some d =>
          if !(jsStrictEq (jsGet parsed "resourceType") d) then
            { st with mismatchCount := st.mismatchCount + 1 }
          else st
      { st1 with resources := st1.resources ++ [parsed], validLines := st1.validLines + 1 }
    | .error msg =>
      let st1 := { st with invalidLines := st.invalidLines + 1 }
      if st1.errors.length < MAX_ERRORS_STORED then
        { st1 with errors := st1.errors ++ [⟨lineNumber, msg, some (truncateRaw line)⟩] }
      else st1

/-- The full parsing loop over an already-split list of lines. -/
def parseLoopLines (jsonParse : String → Except String JsValue)
    (lines : List String) : PState :=
  lines.enum.foldl (lineStep jsonParse) initPState

/-- The synthetic mixed-`resourceType` warning message. -/
def mismatchWarning (count : Nat) (detected : Option JsValue) : String :=
  "Warning: Found " ++ String.mk (natChars count) ++
    " resources with different resourceType than \"" ++
    (match detected with
     | some v => v.templateStr
     | none => "null") ++
    "\". Analysis focuses on the predominant type."

/-- `detectedResourceType || 'Unknown'`. -/
def jsOrUnknown : Option JsValue → JsValue
  | some v => if v.truthy then v else .str "Unknown"
  | none => .str "Unknown"

/-- The pseudo file name
`detectedResourceType ? detectedResourceType + '.ndjson' : 'unknown.ndjson'`. -/
def pseudoName : Option JsValue → String
  | some v => if v.truthy then v.templateStr ++ ".ndjson" else "unknown.ndjson"
  | none => "unknown.ndjson"

/-- `parseNdjson` — parse an NDJSON string.  `jsonParse` is the host JSON
parser and `perfElapsed` the elapsed time reported by `performance.now()`
(both host-provided). -/
def parseNdjson (jsonParse : String → Except String JsValue) (perfElapsed : JNum)
    (input : String) : ParseResult :=
  let lines := jsSplitNl input
  let st := parseLoopLines jsonParse lines
  let errors :=
    if 0 < st.mismatchCount ∧ st.errors.length < MAX_ERRORS_STORED then
      ⟨0, mismatchWarning st.mismatchCount st.detected, none⟩ :: st.errors
    else st.errors
  { resources := st.resources
    resourceType := jsOrUnknown st.detected
    pseudoFileName := pseudoName st.detected
    totalLines := lines.length
    validLines := st.validLines
    invalidLines := st.invalidLines
    errors := errors
    parseTimeMs := perfElapsed }

/-! ### Specification-side line classification

The following definitions restate, per raw line, what the parser loop does,
so that the theorems can speak about the input rather than the loop state. -/

/-- A raw line that is blank after trimming (skipped by the loop). -/
def isBlankLine (s : String) : Bool := jsTrim s = ""

/-- A non-blank raw line whose trimmed text decodes successfully. -/
def isValidLine (jsonParse : String → Except String JsValue) (s : String) : Bool :=
  if jsTrim s = "" then false
  else
    match decodeLine jsonParse (jsTrim s) with
    | .ok _ => true
    | .error _ => false

/-- A non-blank raw line whose trimmed text fails to decode. -/
def isInvalidLine (jsonParse : String → Except String JsValue) (s : String) : Bool :=
  if jsTrim s = "" then false
  else
    match decodeLine jsonParse (jsTrim s) with
    | .ok _ => false
    | .error _ => true

/-- The records contributed by one raw line: none for blank or invalid
lines, the parsed value for valid ones. -/
def lineRecord (jsonParse : String → Except String JsValue) (s : String) : List JsValue :=
  if jsTrim s = "" then []
  else
    match decodeLine jsonParse (jsTrim s) with
    | .ok v => [v]
    | .error _ => []

/-- All successfully parsed records of the input, in input order. -/
def validRecords (jsonParse : String → Except String JsValue)
    (lines : List String) : List JsValue :=
  (lines.map (lineRecord jsonParse)).flatten

/-- The discriminator of a parsed record: `parsed.resourceType`. -/
def kindOf (v : JsValue) : JsValue := jsGet v "resourceType"

/-- The discriminator of the first successfully parsed line, if any. -/
def firstKind (jsonParse : String → Except String JsValue)
    (lines : List String) : Option JsValue :=
  (validRecords jsonParse lines).head?.map kindOf

/-- The number of kind mismatches the loop tallies, given the detected kind
it starts from: with a kind already detected, every valid record of a
different kind counts; starting fresh, every valid record after the first
whose kind differs from the first counts. -/
def specMismatch (jsonParse : String → Except String JsValue)
    (d : Option JsValue) (lines : List String) : Nat :=
  match d with
  | some k => (validRecords jsonParse lines).countP (fun v => !(jsStrictEq (kindOf v) k))
  | none =>
    match validRecords jsonParse lines with
    | [] => 0
    | v :: vs => vs.countP (fun w => !(jsStrictEq (kindOf w) (kindOf v)))

/-! ### Loop-step characterizations -/

theorem lineRecord_cases (jp : String → Except String JsValue) (s : String) :
    lineRecord jp s = [] ∨ ∃ v, lineRecord jp s = [v] := by
  unfold lineRecord
  by_cases hb : jsTrim s = ""
  · simp [hb]
  · simp only [hb, if_false]
    cases decodeLine jp (jsTrim s) with
    | ok v => exact Or.inr ⟨v, rfl⟩
    | error m => exact Or.inl rfl

theorem lineStep_validLines (jp : String → Except String JsValue) (st : PState)
    (p : Nat × String) :
    (lineStep jp st p).validLines = st.validLines + (if isValidLine jp p.2 then 1 else 0) := by
  unfold lineStep isValidLine
  by_cases hb : jsTrim p.2 = ""
  · simp [hb]
  · simp only [hb, if_false]
    cases hd : decodeLine jp (jsTrim p.2) with
    | ok v => cases st.detected <;> simp [hd] <;> split <;> simp
    | error m => simp [hd]; split <;> simp

theorem lineStep_invalidLines (jp : String → Except String JsValue) (st : PState)
    (p : Nat × String) :
    (lineStep jp st p).invalidLines
      = st.invalidLines + (if isInvalidLine jp p.2 then 1 else 0) := by
  unfold lineStep isInvalidLine
  by_cases hb : jsTrim p.2 = ""
  · simp [hb]
  · simp only [hb, if_false]
    cases hd : decodeLine jp (jsTrim p.2) with
    | ok v => cases st.detected <;> simp [hd] <;> split <;> simp
    | error m => simp [hd]; split <;> simp

theorem lineStep_resources (jp : String → Except String JsValue) (st : PState)
    (p : Nat × String) :
    (lineStep jp st p).resources = st.resources ++ lineRecord jp p.2 := by
  unfold lineStep lineRecord
  by_cases hb : jsTrim p.2 = ""
  · simp [hb]
  · simp only [hb, if_false]
    cases hd : decodeLine jp (jsTrim p.2) with
    | ok v => cases st.detected <;> simp [hd] <;> split <;> simp
    | error m => simp [hd]; split <;> simp

theorem lineStep_errorsLen (jp : String → Except String JsValue) (st : PState)
    (p : Nat × String) :
    (lineStep jp st p).errors.length
      = if isInvalidLine jp p.2 ∧ st.errors.length < 50 then st.errors.length + 1
        else st.errors.length := by
  unfold lineStep isInvalidLine MAX_ERRORS_STORED
  by_cases hb : jsTrim p.2 = ""
  · simp [hb]
  · simp only [hb, if_false]
    cases hd : decodeLine jp (jsTrim p.2) with
    | ok v => cases st.detected <;> simp [hd] <;> split <;> simp
    | error m =>
      simp only [hd]
      by_cases hl : st.errors.length < 50 <;> simp [hl]

theorem lineStep_errors_mem (jp : String → Except String JsValue) (st : PState)
    (p : Nat × String) :
    ∀ e ∈ (lineStep jp st p).errors, e ∈ st.errors ∨ e.lineNumber = p.1 + 1 := by
  unfold lineStep
  by_cases hb : jsTrim p.2 = ""
  · simp only [hb, if_pos]
    exact fun e he => Or.inl he
  · simp only [hb, if_false]
    cases hd : decodeLine jp (jsTrim p.2) with
    | ok v =>
      cases hdet : st.detected with
      | none =>
        simp only [hdet]
        exact fun e he => Or.inl he
      | some d =>
        simp only [hdet]
        split
        · exact fun e he => Or.inl he
        · exact fun e he => Or.inl he
    | error m =>
      by_cases hl : st.errors.length < MAX_ERRORS_STORED
      · simp only [hl, if_pos]
        intro e he
        rcases List.mem_append.mp he with h1 | h1
        · exact Or.inl h1
        · right
          rw [List.mem_singleton.mp h1]
      · simp only [hl, if_neg, if_false]
        exact fun e he => Or.inl he

theorem lineStep_detected (jp : String → Except String JsValue) (st : PState)
    (p : Nat × String) :
    (lineStep jp st p).detected
      = (match st.detected with
         | some d => some d
         | none => (lineRecord jp p.2).head?.map kindOf) := by
  unfold lineStep lineRecord kindOf
  by_cases hb : jsTrim p.2 = ""
  · cases hdet : st.detected <;> simp [hb, hdet]
  · simp only [hb, if_false]
    cases hd : decodeLine jp (jsTrim p.2) with
    | ok v =>
      cases hdet : st.detected with
      | none => simp [hd, hdet]
      | some d =>
        simp only [hd, hdet]
        split <;> simp [hdet]
    | error m =>
      cases hdet : st.detected with
      | none =>
        simp only [hd, hdet]
        split <;> rfl
      | some d =>
        simp only [hd, hdet]
        split <;> rfl

theorem lineStep_mismatch (jp : String → Except String JsValue) (st : PState)
    (p : Nat × String) :
    (lineStep jp st p).mismatchCount
      = st.mismatchCount
        + (match st.detected with
           | some d => (lineRecord jp p.2).countP (fun v => !(jsStrictEq (kindOf v) d))
           | none => 0) := by
  unfold lineStep lineRecord kindOf
  by_cases hb : jsTrim p.2 = ""
  · cases hdet : st.detected <;> simp [hb, hdet]
  · simp only [hb, if_false]
    cases hd : decodeLine jp (jsTrim p.2) with
    | ok v =>
      cases hdet : st.detected with
      | none => simp [hd, hdet]
      | some d =>
        simp only [hd, hdet]
        by_cases hm : jsStrictEq (jsGet v "resourceType") d <;> simp [hm]
    | error m =>
      cases hdet : st.detected with
      | none =>
        simp only [hd, hdet]
        split <;> simp
      | some d =>
        simp only [hd, hdet]
        split <;> simp [lineRecord, hb, hd]

/-! ### Loop invariants by induction over the lines -/

theorem validRecords_cons (jp : String → Except String JsValue) (s : String)
    (ls : List String) :
    validRecords jp (s :: ls) = lineRecord jp s ++ validRecords jp ls := by
  simp [validRecords]

theorem foldl_validLines (jp : String → Except String JsValue) :
    ∀ (l : List String) (n : Nat) (st : PState),
      ((List.enumFrom n l).foldl (lineStep jp) st).validLines
        = st.validLines + l.countP (isValidLine jp)
  | [], _, _ => by simp
  | s :: ls, n, st => by
    have h := foldl_validLines jp ls (n + 1) (lineStep jp st (n, s))
    simp only [List.enumFrom, List.foldl_cons] at h ⊢
    rw [h, lineStep_validLines, List.countP_cons]
    split <;> simp_all <;> omega

theorem foldl_invalidLines (jp : String → Except String JsValue) :
    ∀ (l : List String) (n : Nat) (st : PState),
      ((List.enumFrom n l).foldl (lineStep jp) st).invalidLines
        = st.invalidLines + l.countP (isInvalidLine jp)
  | [], _, _ => by simp
  | s :: ls, n, st => by
    have h := foldl_invalidLines jp ls (n + 1) (lineStep jp st (n, s))
    simp only [List.enumFrom, List.foldl_cons] at h ⊢
    rw [h, lineStep_invalidLines, List.countP_cons]
    split <;> simp_all <;> omega

theorem foldl_resources (jp : String → Except String JsValue) :
    ∀ (l : List String) (n : Nat) (st : PState),
      ((List.enumFrom n l).foldl (lineStep jp) st).resources
        = st.resources ++ validRecords jp l
  | [], _, _ => by simp [validRecords]
  | s :: ls, n, st => by
    have h := foldl_resources jp ls (n + 1) (lineStep jp st (n, s))
    simp only [List.enumFrom, List.foldl_cons] at h ⊢
    rw [h, lineStep_resources, validRecords_cons, List.append_assoc]

theorem foldl_errLen (jp : String → Except String JsValue) :
    ∀ (l : List String) (n : Nat) (st : PState),
      st.errors.length = min st.invalidLines 50 →
      ((List.enumFrom n l).foldl (lineStep jp) st).errors.length
        = min ((List.enumFrom n l).foldl (lineStep jp) st).invalidLines 50
  | [], _, _, h => by simpa using h
  | s :: ls, n, st, h => by
    simp only [List.enumFrom, List.foldl_cons]
    apply foldl_errLen jp ls (n + 1) (lineStep jp st (n, s))
    rw [lineStep_errorsLen, lineStep_invalidLines]
    by_cases hi : isInvalidLine jp s
    · by_cases hlt : st.errors.length < 50 <;> simp [hi, hlt] <;> omega
    · simp [hi]
      omega

theorem foldl_errMem (jp : String → Except String JsValue) :
    ∀ (l : List String) (n : Nat) (st : PState),
      (∀ e ∈ st.errors, 1 ≤ e.lineNumber) →
      ∀ e ∈ ((List.enumFrom n l).foldl (lineStep jp) st).errors, 1 ≤ e.lineNumber
  | [], _, _, h => by simpa using h
  | s :: ls, n, st, h => by
    simp only [List.enumFrom, List.foldl_cons]
    apply foldl_errMem jp ls (n + 1) (lineStep jp st (n, s))
    intro e he
    rcases lineStep_errors_mem jp st (n, s) e he with h1 | h1
    · exact h e h1
    · omega

theorem foldl_detMis (jp : String → Except String JsValue) :
    ∀ (l : List String) (n : Nat) (st : PState),
      ((List.enumFrom n l).foldl (lineStep jp) st).detected
          = (match st.detected with
             | some d => some d
             | none => firstKind jp l)
      ∧ ((List.enumFrom n l).foldl (lineStep jp) st).mismatchCount
          = st.mismatchCount + specMismatch jp st.detected l
  | [], _, st => by
    cases hdet : st.detected <;> simp [firstKind, specMismatch, validRecords, hdet]
  | s :: ls, n, st => by
    have ih := foldl_detMis jp ls (n + 1) (lineStep jp st (n, s))
    simp only [List.enumFrom, List.foldl_cons] at ih ⊢
    rw [ih.1, ih.2, lineStep_detected, lineStep_mismatch]
    cases hdet : st.detected with
    | some d =>
      refine ⟨rfl, ?_⟩
      simp only [specMismatch, validRecords_cons, List.countP_append]
      omega
    | none =>
      rcases lineRecord_cases jp s with hlr | ⟨v, hlr⟩
      · simp only [hlr, List.head?_nil, Option.map_none]
        constructor
        · simp [firstKind, validRecords_cons, hlr]
        · simp [specMismatch, validRecords_cons, hlr]
      · simp only [hlr, List.head?_cons, Option.map_some]
        constructor
        · simp [firstKind, validRecords_cons, hlr]
        · simp [specMismatch, validRecords_cons, hlr]

theorem parseLoop_validLines (jp : String → Except String JsValue) (lines : List String) :
    (parseLoopLines jp lines).validLines = lines.countP (isValidLine jp) := by
  unfold parseLoopLines
  rw [List.enum_eq_enumFrom, foldl_validLines]
  simp [initPState]

theorem parseLoop_invalidLines (jp : String → Except String JsValue) (lines : List String) :
    (parseLoopLines jp lines).invalidLines = lines.countP (isInvalidLine jp) := by
  unfold parseLoopLines
  rw [List.enum_eq_enumFrom, foldl_invalidLines]
  simp [initPState]

theorem parseLoop_resources (jp : String → Except String JsValue) (lines : List String) :
    (parseLoopLines jp lines).resources = validRecords jp lines := by
  unfold parseLoopLines
  rw [List.enum_eq_enumFrom, foldl_resources]
  simp [initPState]

theorem parseLoop_errLen (jp : String → Except String JsValue) (lines : List String) :
    (parseLoopLines jp lines).errors.length = min (lines.countP (isInvalidLine jp)) 50 := by
  unfold parseLoopLines
  rw [List.enum_eq_enumFrom, foldl_errLen jp lines 0 initPState (by simp [initPState]),
    foldl_invalidLines]
  simp [initPState]

theorem parseLoop_errMem (jp : String → Except String JsValue) (lines : List String) :
    ∀ e ∈ (parseLoopLines jp lines).errors, 1 ≤ e.lineNumber := by
  unfold parseLoopLines
  rw [List.enum_eq_enumFrom]
  exact foldl_errMem jp lines 0 initPState (by simp [initPState])

theorem parseLoop_detected (jp : String → Except String JsValue) (lines : List String) :
    (parseLoopLines jp lines).detected = firstKind jp lines := by
  unfold parseLoopLines
  rw [List.enum_eq_enumFrom]
  have h := (foldl_detMis jp lines 0 initPState).1
  simpa [initPState] using h

theorem parseLoop_mismatch (jp : String → Except String JsValue) (lines : List String) :
    (parseLoopLines jp lines).mismatchCount = specMismatch jp none lines := by
  unfold parseLoopLines
  rw [List.enum_eq_enumFrom]
  have h := (foldl_detMis jp lines 0 initPState).2
  simpa [initPState] using h

theorem line_trichotomy (jp : String → Except String JsValue) (s : String) :
    (if isBlankLine s then 1 else 0) + (if isValidLine jp s then 1 else 0)
      + (if isInvalidLine jp s then 1 else 0) = 1 := by
  unfold isBlankLine isValidLine isInvalidLine
  by_cases hb : jsTrim s = ""
  · simp [hb]
  · simp only [hb, if_false]
    cases hd : decodeLine jp (jsTrim s) <;> simp [hd, hb]

theorem countP_trichotomy (jp : String → Except String JsValue) :
    ∀ l : List String,
      l.countP isBlankLine + l.countP (isValidLine jp) + l.countP (isInvalidLine jp)
        = l.length
  | [] => by simp
  | s :: ls => by
    have h1 := countP_trichotomy jp ls
    have h2 := line_trichotomy jp s
    simp only [List.countP_cons, List.length_cons]
    by_cases hb : isBlankLine s <;> by_cases hv : isValidLine jp s <;>
      by_cases hi : isInvalidLine jp s <;> simp [hb, hv, hi] at h2 ⊢ <;> omega

theorem decodeLine_ok_truthy (jp : String → Except String JsValue) (s : String)
    (v : JsValue) (h : decodeLine jp s = .ok v) : (kindOf v).truthy = true := by
  unfold decodeLine at h
  cases hj : jp s with
  | error m => rw [hj] at h; cases h
  | ok parsed =>
    rw [hj] at h
    dsimp only at h
    by_cases h1 : (!(parsed.truthy && parsed.isObjLike)) = true
    · rw [if_pos h1] at h; cases h
    · rw [if_neg h1] at h
      by_cases h2 : (!(jsGet parsed "resourceType").truthy) = true
      · rw [if_pos h2] at h; cases h
      · rw [if_neg h2] at h
        cases h
        simp only [Bool.not_eq_true, Bool.not_eq_false] at h2
        simpa [kindOf] using h2

theorem mem_validRecords_truthy (jp : String → Except String JsValue)
    (lines : List String) :
    ∀ v ∈ validRecords jp lines, (kindOf v).truthy = true := by
  intro v hv
  unfold validRecords at hv
  rcases List.mem_flatten.mp hv with ⟨l, hl, hvl⟩
  rcases List.mem_map.mp hl with ⟨s, _, rfl⟩
  unfold lineRecord at hvl
  by_cases hb : jsTrim s = ""
  · simp [hb] at hvl
  · simp only [hb, if_false] at hvl
    cases hd : decodeLine jp (jsTrim s) with
    | ok w =>
      rw [hd] at hvl
      rw [List.mem_singleton.mp hvl]
      exact decodeLine_ok_truthy jp (jsTrim s) w hd
    | error m => rw [hd] at hvl; cases hvl

theorem parseNdjson_errors_eq (jp : String → Except String JsValue) (perf : JNum)
    (input : String) :
    (parseNdjson jp perf input).errors
      = (if 0 < (parseLoopLines jp (jsSplitNl input)).mismatchCount
            ∧ (parseLoopLines jp (jsSplitNl input)).errors.length < MAX_ERRORS_STORED
         then ⟨0, mismatchWarning (parseLoopLines jp (jsSplitNl input)).mismatchCount
                  (parseLoopLines jp (jsSplitNl input)).detected, none⟩
              :: (parseLoopLines jp (jsSplitNl input)).errors
         else (parseLoopLines jp (jsSplitNl input)).errors) := rfl

/-! ### Claim theorems about the parser -/

/-- C3: for every input string, `totalLines = blankLines + validCount +
invalidCount`, where a blank line is one that is empty or all-whitespace
after trimming; blank lines are counted in `totalLines` but in neither
`validLines` nor `invalidLines`. -/
theorem parse_line_accounting (jp : String → Except String JsValue) (perf : JNum)
    (input : String) :
    (parseNdjson jp perf input).totalLines
      = (jsSplitNl input).countP isBlankLine
        + (parseNdjson jp perf input).validLines
        + (parseNdjson jp perf input).invalidLines := by
  have h1 : (parseNdjson jp perf input).totalLines = (jsSplitNl input).length := rfl
  have h2 : (parseNdjson jp perf input).validLines
      = (parseLoopLines jp (jsSplitNl input)).validLines := rfl
  have h3 : (parseNdjson jp perf input).invalidLines
      = (parseLoopLines jp (jsSplitNl input)).invalidLines := rfl
  rw [h1, h2, h3, parseLoop_validLines, parseLoop_invalidLines]
  have h4 := countP_trichotomy jp (jsSplitNl input)
  omega

/-- C9: the `errors` sequence returned by `parseNdjson` always has length at
most 50, counting the synthetic kind-mismatch summary entry, which is only
prepended when fewer than 50 per-line entries are already stored; the length
equals `invalid + 1` exactly when a mismatch occurred and fewer than 50
lines were invalid, and `min invalid 50` otherwise. -/
theorem parse_errors_capped (jp : String → Except String JsValue) (perf : JNum)
    (input : String) :
    (parseNdjson jp perf input).errors.length
      = (if 0 < specMismatch jp none (jsSplitNl input)
            ∧ (jsSplitNl input).countP (isInvalidLine jp) < 50
         then (jsSplitNl input).countP (isInvalidLine jp) + 1
         else min ((jsSplitNl input).countP (isInvalidLine jp)) 50)
    ∧ (parseNdjson jp perf input).errors.length ≤ 50 := by
  rw [parseNdjson_errors_eq, parseLoop_mismatch]
  have hmin : min ((jsSplitNl input).countP (isInvalidLine jp)) 50 ≤ 50 := by omega
  constructor
  · split
    · rename_i h
      rw [parseLoop_errLen] at h
      rw [List.length_cons, parseLoop_errLen]
      rw [if_pos ⟨h.1, by unfold MAX_ERRORS_STORED at h; omega⟩]
      unfold MAX_ERRORS_STORED at h
      omega
    · rename_i h
      rw [parseLoop_errLen] at h
      unfold MAX_ERRORS_STORED at h
      rw [parseLoop_errLen, if_neg (by omega)]
  · split
    · rename_i h
      rw [parseLoop_errLen] at h
      unfold MAX_ERRORS_STORED at h
      rw [List.length_cons, parseLoop_errLen]
      omega
    · rw [parseLoop_errLen]
      omega

/-- C1: whenever an input has more than 50 invalid lines, exactly 50
diagnostics are stored (all of them per-line diagnostics, with line numbers
at least 1, so no synthetic summary is present), while `invalidLines`
still reports the true total number of invalid lines. -/
theorem parse_cap_overflow (jp : String → Except String JsValue) (perf : JNum)
    (input : String)
    (h : 50 < (jsSplitNl input).countP (isInvalidLine jp)) :
    (parseNdjson jp perf input).errors.length = 50
    ∧ (parseNdjson jp perf input).invalidLines
        = (jsSplitNl input).countP (isInvalidLine jp)
    ∧ ∀ e ∈ (parseNdjson jp perf input).errors, 1 ≤ e.lineNumber := by
  have hinv : (parseNdjson jp perf input).invalidLines
      = (parseLoopLines jp (jsSplitNl input)).invalidLines := rfl
  have herr : (parseNdjson jp perf input).errors
      = (parseLoopLines jp (jsSplitNl input)).errors := by
    rw [parseNdjson_errors_eq]
    rw [if_neg]
    intro hc
    have := hc.2
    rw [parseLoop_errLen] at this
    unfold MAX_ERRORS_STORED at this
    omega
  refine ⟨?_, ?_, ?_⟩
  · rw [herr, parseLoop_errLen]
    omega
  · rw [hinv, parseLoop_invalidLines]
  · rw [herr]
    exact parseLoop_errMem jp (jsSplitNl input)

/-- A host JSON parser that rejects every line (its concrete behaviour is
irrelevant; only failure matters for the cap witness). -/
def jpFail : String → Except String JsValue := fun _ => .error "Unexpected token"

/-- 51 lines, each containing the single character x. -/
def input51 : String := String.mk ((List.replicate 50 ['x', '\n']).flatten ++ ['x'])

/-- Witness for C1: a concrete input with 51 invalid lines stores exactly 50
diagnostics. -/
theorem parse_cap_overflow_witness :
    50 < (jsSplitNl input51).countP (isInvalidLine jpFail)
    ∧ (parseNdjson jpFail (JNum.ofNat 0) input51).errors.length = 50 :=
  ⟨by decide, (parse_cap_overflow jpFail (JNum.ofNat 0) input51 (by decide)).1⟩

/-- C2: the parsed collection contains every successfully decoded record in
input order (mismatching discriminators included); the reported
`resourceType` is the discriminator of the first successfully parsed line,
unaffected by later lines, and is the literal string Unknown when no line
ever parses; later records with a different discriminator only bump the
mismatch counter, whose value is exactly the number of valid records whose
discriminator differs from the first one. -/
theorem parse_detected_kind (jp : String → Except String JsValue) (perf : JNum)
    (input : String) :
    (parseNdjson jp perf input).resources = validRecords jp (jsSplitNl input)
    ∧ (parseNdjson jp perf input).resourceType
        = (match firstKind jp (jsSplitNl input) with
           | some k => k
           | none => JsValue.str "Unknown")
    ∧ (parseLoopLines jp (jsSplitNl input)).mismatchCount
        = specMismatch jp none (jsSplitNl input) := by
  refine ⟨?_, ?_, parseLoop_mismatch jp _⟩
  · have h : (parseNdjson jp perf input).resources
        = (parseLoopLines jp (jsSplitNl input)).resources := rfl
    rw [h, parseLoop_resources]
  · have h : (parseNdjson jp perf input).resourceType
        = jsOrUnknown (parseLoopLines jp (jsSplitNl input)).detected := rfl
    rw [h, parseLoop_detected]
    unfold firstKind
    cases hl : validRecords jp (jsSplitNl input) with
    | nil => rfl
    | cons v vs =>
      have ht : (kindOf v).truthy = true := by
        apply mem_validRecords_truthy jp (jsSplitNl input)
        rw [hl]
        exact List.mem_cons_self v vs
      simp [jsOrUnknown, ht]

/-! ## Dates and the host environment -/

/-- A JavaScript `Date` object: its epoch timestamp (`getTime`) together
with the calendar components `getFullYear`, `getMonth` (0-based) and
`getDate` in the host timezone. -/
structure JSDate where
  time : Int
  year : Int
  month : Int
  day : Int
  deriving Repr, DecidableEq

/-- The host functions the analyzers call.  `jsonParse` is `JSON.parse`
(returning `Except.error` for a thrown syntax error), `parseDate` is
`new Date(string)` (`none` for an Invalid Date), `now` is `new Date()`,
`fmtDate` is `Date.prototype.toLocaleDateString`, and `fmtMonthLabel` is
the composite `new Date(key + "-01").toLocaleDateString("en-US", ...)`
applied to a month key. -/
structure JsEnv where
  jsonParse : String → Except String JsValue
  parseDate : String → Option JSDate
  now : JSDate
  fmtDate : JSDate → String
  fmtMonthLabel : String → String

/-! ## FHIR record shapes

Projections of the TypeScript interface declarations of the FHIR types
module (src/types/fhir.ts) onto exactly the fields the two analyzers read;
each such field is optional in the interfaces and optional here.  The
`class` coding of an encounter is a `FhirCoding`, restricted here to its
read fields `code` and `display`; an encounter `type` entry is a
`FhirCodeableConcept` (`text` plus a coding list). -/

/-- An entry of a patient address list (fields read: `state`, `city`). -/
structure FhirAddress where
  state : Option String
  city : Option String
  deriving Repr, DecidableEq

/-- A coding entry (fields read: `code`, `display`). -/
structure FhirCoding where
  code : Option String
  display : Option String
  deriving Repr, DecidableEq

/-- A FHIR extension: url, nested sub-extensions, and the value fields the
analyzers read (`valueCoding.display` collapsed into one optional string,
plus `valueString`). -/
inductive FhirExtension where
  | mk (url : Option String) (extension : Option (List FhirExtension))
      (valueCoding : Option FhirCoding) (valueString : Option String)
  deriving Repr

/-- Accessor for the extension url. -/
def FhirExtension.url : FhirExtension → Option String
  | .mk u _ _ _ => u

/-- Accessor for the nested sub-extension list. -/
def FhirExtension.extension : FhirExtension → Option (List FhirExtension)
  | .mk _ e _ _ => e

/-- Accessor for `valueCoding`. -/
def FhirExtension.valueCoding : FhirExtension → Option FhirCoding
  | .mk _ _ c _ => c

/-- Accessor for `valueString`. -/
def FhirExtension.valueString : FhirExtension → Option String
  | .mk _ _ _ s => s

/-- The fields of a `Patient` resource read by `analyzePatients`. -/
structure FhirPatient where
  id : Option String
  gender : Option String
  birthDate : Option String
  deceasedBoolean : Option Bool
  deceasedDateTime : Option String
  extension : Option (List FhirExtension)
  address : Option (List FhirAddress)
  deriving Repr

/-- An `Encounter.class` coding (the source field is named `class`, a Lean
keyword). -/
structure FhirClass where
  code : Option String
  display : Option String
  deriving Repr, DecidableEq

/-- An entry of `Encounter.type`. -/
structure FhirType where
  text : Option String
  coding : Option (List FhirCoding)
  deriving Repr, DecidableEq

/-- `Encounter.period` (the source field `end` is a Lean keyword, renamed
`endTime`). -/
structure FhirPeriod where
  start : Option String
  endTime : Option String
  deriving Repr, DecidableEq

/-- `Encounter.subject`. -/
structure FhirSubject where
  reference : Option String
  deriving Repr, DecidableEq

/-- The fields of an `Encounter` resource read by `analyzeEncounters`
(the source field `class` is a Lean keyword, renamed `classField`). -/
structure FhirEncounter where
  id : Option String
  status : Option String
  classField : Option FhirClass
  type : Option (List FhirType)
  period : Option FhirPeriod
  subject : Option FhirSubject
  deriving Repr

/-! ## Patient analytics (src/utils/patientAnalytics.ts) -/

/-- US Core race extension URL. -/
def US_CORE_RACE_URL : String :=
  "http://hl7.org/fhir/us/core/StructureDefinition/us-core-race"

/-- US Core ethnicity extension URL. -/
def US_CORE_ETHNICITY_URL : String :=
  "http://hl7.org/fhir/us/core/StructureDefinition/us-core-ethnicity"

/-- `calculateAge` — age in full years between the birth date and the death
timestamp if present, else the current date.  An absent or unparsable birth
date, an unparsable death timestamp (whose `NaN` arithmetic fails the final
`age >= 0` check) and a negative age all yield `none`. -/
def calculateAge (env : JsEnv) (birthDate deceasedDateTime : Option String) :
    Option Int :=
  if optTruthy birthDate then
    match env.parseDate (birthDate.getD "") with
    | none => none
    | some birth =>
      let endOpt : Option JSDate :=
        if optTruthy deceasedDateTime then env.parseDate (deceasedDateTime.getD "")
        else some env.now
      match endOpt with
      | none => none
      | some endDate =>
        let monthDiff := endDate.month - birth.month
        let age := endDate.year - birth.year
          - (if monthDiff < 0 ∨ (monthDiff = 0 ∧ endDate.day < birth.day) then 1 else 0)
        if 0 ≤ age then some age else none
  else none

/-- Truthy-guarded read of `ext?.valueCoding?.display`. -/
def codingDisplayOf (ext : Option FhirExtension) : Option String :=
  match ext with
  | none => none
  | some e =>
    match e.valueCoding with
    | none => none
    | some c => if optTruthy c.display then some (c.display.getD "") else none

/-- Truthy-guarded read of `ext?.valueString`. -/
def valueStringOf (ext : Option FhirExtension) : Option String :=
  match ext with
  | none => none
  | some e => if optTruthy e.valueString then some (e.valueString.getD "") else none

/-- `extractRace` — find the US Core race extension, then prefer the
`ombCategory` coding display, else the `detailed` coding display, else the
`text` value string. -/
def extractRace (extensions : Option (List FhirExtension)) : Option String :=
  match extensions with
  | none => none
  | some exts =>
    match exts.find? (fun e => decide (e.url = some US_CORE_RACE_URL)) with
    | none => none
    | some raceExt =>
      match raceExt.extension with
      | none => none
      | some subs =>
        match codingDisplayOf (subs.find? (fun e => decide (e.url = some "ombCategory"))) with
        | some d => some d
        | none =>
          match codingDisplayOf (subs.find? (fun e => decide (e.url = some "detailed"))) with
          | some d => some d
          | none =>
            match valueStringOf (subs.find? (fun e => decide (e.url = some "text"))) with
            | some t => some t
            | none => none

/-- `extractEthnicity` — same shape as `extractRace` but without the
`detailed` fallback. -/
def extractEthnicity (extensions : Option (List FhirExtension)) : Option String :=
  match extensions with
  | none => none
  | some exts =>
    match exts.find? (fun e => decide (e.url = some US_CORE_ETHNICITY_URL)) with
    | none => none
    | some ethExt =>
      match ethExt.extension with
      | none => none
      | some subs =>
        match codingDisplayOf (subs.find? (fun e => decide (e.url = some "ombCategory"))) with
        | some d => some d
        | none =>
          match valueStringOf (subs.find? (fun e => decide (e.url = some "text"))) with
          | some t => some t
          | none => none

/-- One item of a categorical distribution. -/
structure DistributionItem where
  label : String
  count : Nat
  percentage : JNum
  deriving Repr, DecidableEq

/-- `createDistribution` — turn a counting map into labelled items with
percentages of the total, sorted descending by count (stable). -/
def createDistribution (counts : CountMap) : List DistributionItem :=
  let total := (counts.map (fun kv => kv.2)).sum
  jsSort (fun a b => decide (b.count ≤ a.count))
    (counts.map fun kv =>
      { label := kv.1
        count := kv.2
        percentage :=
          if 0 < total then ((JNum.ofNat kv.2).div (JNum.ofNat total)).mul (JNum.ofNat 100)
          else JNum.ofNat 0 })

/-- A histogram bucket. -/
structure HistogramBucket where
  min : JNum
  max : JNum
  label : String
  count : Nat
  deriving Repr, DecidableEq

/-- Scan the bucket list in order and increment the first bucket matching
the predicate (the inner `for ... break` loop shared by all histogram
builders). -/
def bumpFirst (p : HistogramBucket → Bool) : List HistogramBucket → List HistogramBucket
  | [] => []
  | b :: bs => if p b then { b with count := b.count + 1 } :: bs else b :: bumpFirst p bs

/-- The fixed decade buckets of the age histogram. -/
def ageBuckets : List HistogramBucket :=
  [⟨JNum.ofNat 0, JNum.ofNat 9, "0-9", 0⟩,
   ⟨JNum.ofNat 10, JNum.ofNat 19, "10-19", 0⟩,
   ⟨JNum.ofNat 20, JNum.ofNat 29, "20-29", 0⟩,
   ⟨JNum.ofNat 30, JNum.ofNat 39, "30-39", 0⟩,
   ⟨JNum.ofNat 40, JNum.ofNat 49, "40-49", 0⟩,
   ⟨JNum.ofNat 50, JNum.ofNat 59, "50-59", 0⟩,
   ⟨JNum.ofNat 60, JNum.ofNat 69, "60-69", 0⟩,
   ⟨JNum.ofNat 70, JNum.ofNat 79, "70-79", 0⟩,
   ⟨JNum.ofNat 80, JNum.ofNat 89, "80-89", 0⟩,
   ⟨JNum.ofNat 90, JNum.ofNat 120, "90+", 0⟩]

/-- `createAgeHistogram` — closed-interval matching `min <= age <= max`,
first match wins; empty buckets are kept. -/
def createAgeHistogram (ages : List JNum) : List HistogramBucket :=
  ages.foldl (fun bs age => bumpFirst (fun b => b.min.leB age && age.leB b.max) bs)
    ageBuckets

/-- The statistics record of `calculateStats` in the patient analyzer. -/
structure AgeStats where
  mean : JNum
  median : JNum
  min : JNum
  max : JNum
  stdDev : JNum
  deriving Repr, DecidableEq

/-- `calculateStats` (patient version): mean, median, min, max and
population standard deviation; mean, median and stdDev rounded to one
decimal; all zero on empty input. -/
def calculateStats (values : List JNum) : AgeStats :=
  if values.length = 0 then
    ⟨JNum.ofNat 0, JNum.ofNat 0, JNum.ofNat 0, JNum.ofNat 0, JNum.ofNat 0⟩
  else
    let sorted := jsSort JNum.leB values
    let sum := values.foldl JNum.add (JNum.ofNat 0)
    let mean := sum.div (JNum.ofNat values.length)
    let median :=
      if values.length % 2 = 0 then
        ((sorted.getD (values.length / 2 - 1) (JNum.ofNat 0)).add
            (sorted.getD (values.length / 2) (JNum.ofNat 0))).div (JNum.ofNat 2)
      else sorted.getD (values.length / 2) (JNum.ofNat 0)
    let squaredDiffs := values.map (fun v => (v.sub mean).mul (v.sub mean))
    let avgSquaredDiff := (squaredDiffs.foldl JNum.add (JNum.ofNat 0)).div
      (JNum.ofNat values.length)
    { mean := mean.roundTenth
      median := median.roundTenth
      min := sorted.getD 0 (JNum.ofNat 0)
      max := sorted.getD (sorted.length - 1) (JNum.ofNat 0)
      stdDev := avgSquaredDiff.sqrtRoundTenth }

/-- A date range with display strings. -/
structure DateRange where
  min : Option JSDate
  max : Option JSDate
  minFormatted : String
  maxFormatted : String
  deriving Repr, DecidableEq

/-- The result record of `analyzePatients`. -/
structure PatientAnalytics where
  totalPatients : Nat
  uniqueIds : Nat
  genderDistribution : List DistributionItem
  ageDistribution : List HistogramBucket
  ageStats : AgeStats
  raceDistribution : List DistributionItem
  ethnicityDistribution : List DistributionItem
  stateDistribution : List DistributionItem
  cityDistribution : List DistributionItem
  livingCount : Nat
  deceasedCount : Nat
  mortalityRate : JNum
  birthDateRange : DateRange
  missingBirthDate : Nat
  missingGender : Nat
  missingAddress : Nat
  deriving Repr, DecidableEq

/-- The mutable locals of the `for (const patient of patients)` loop. -/
structure PAccum where
  genderCounts : CountMap
  raceCounts : CountMap
  ethnicityCounts : CountMap
  stateCounts : CountMap
  cityCounts : CountMap
  ages : List JNum
  birthDates : List JSDate
  livingCount : Nat
  deceasedCount : Nat
  missingBirthDate : Nat
  missingGender : Nat
  missingAddress : Nat
  deriving Repr

/-- Loop locals before the first iteration. -/
def initPAccum : PAccum := ⟨[], [], [], [], [], [], [], 0, 0, 0, 0, 0⟩

/-- The Gender section of the patient loop. -/
def stepGender (acc : PAccum) (patient : FhirPatient) : PAccum :=
  if optTruthy patient.gender then
    { acc with genderCounts := acc.genderCounts.bump (patient.gender.getD "") }
  else { acc with missingGender := acc.missingGender + 1 }

/-- The Age section of the patient loop. -/
def stepAge (env : JsEnv) (acc : PAccum) (patient : FhirPatient) : PAccum :=
  match calculateAge env patient.birthDate patient.deceasedDateTime with
  | some age => { acc with ages := acc.ages ++ [JNum.ofInt age] }
  | none => acc

/-- The Birth date section of the patient loop. -/
def stepBirthDate (env : JsEnv) (acc : PAccum) (patient : FhirPatient) : PAccum :=
  if optTruthy patient.birthDate then
    match env.parseDate (patient.birthDate.getD "") with
    | some d => { acc with birthDates := acc.birthDates ++ [d] }
    | none => acc
  else { acc with missingBirthDate := acc.missingBirthDate + 1 }

/-- The Deceased status section of the patient loop. -/
def stepDeceased (acc : PAccum) (patient : FhirPatient) : PAccum :=
  if patient.deceasedBoolean = some true ∨ optTruthy patient.deceasedDateTime then
    { acc with deceasedCount := acc.deceasedCount + 1 }
  else { acc with livingCount := acc.livingCount + 1 }

/-- The Race half of the Race and ethnicity section. -/
def stepRace (acc : PAccum) (patient : FhirPatient) : PAccum :=
  if optTruthy (extractRace patient.extension) then
    { acc with raceCounts := acc.raceCounts.bump ((extractRace patient.extension).getD "") }
  else acc

/-- The Ethnicity half of the Race and ethnicity section. -/
def stepEthnicity (acc : PAccum) (patient : FhirPatient) : PAccum :=
  if optTruthy (extractEthnicity patient.extension) then
    { acc with ethnicityCounts :=
        acc.ethnicityCounts.bump ((extractEthnicity patient.extension).getD "") }
  else acc

/-- The Address section of the patient loop. -/
def stepAddress (acc : PAccum) (patient : FhirPatient) : PAccum :=
  match patient.address with
  | some (primaryAddress :: _) =>
    let acc1 :=
      if optTruthy primaryAddress.state then
        { acc with stateCounts := acc.stateCounts.bump (primaryAddress.state.getD "") }
      else acc
    if optTruthy primaryAddress.city then
      { acc1 with cityCounts := acc1.cityCounts.bump (primaryAddress.city.getD "") }
    else acc1
  | _ => { acc with missingAddress := acc.missingAddress + 1 }

/-- One iteration of the patient loop: the source sections in order —
gender, age, birth date, deceased status, race, ethnicity, address. -/
def patientStep (env : JsEnv) (acc : PAccum) (patient : FhirPatient) : PAccum :=
  stepAddress
    (stepEthnicity
      (stepRace
        (stepDeceased
          (stepBirthDate env (stepAge env (stepGender acc patient) patient) patient)
          patient)
        patient)
      patient)
    patient

/-- `analyzePatients` — single pass over the patients, then aggregation. -/
def analyzePatients (env : JsEnv) (patients : List FhirPatient) : PatientAnalytics :=
  let ids := (patients.map FhirPatient.id).filterMap
    (fun o => if optTruthy o then some (o.getD "") else none)
  let acc := patients.foldl (patientStep env) initPAccum
  let sortedBirthDates := jsSort (fun a b => decide (a.time ≤ b.time)) acc.birthDates
  { totalPatients := patients.length
    uniqueIds := jsSetSize ids
    genderDistribution := createDistribution acc.genderCounts
    ageDistribution := createAgeHistogram acc.ages
    ageStats := calculateStats acc.ages
    raceDistribution := createDistribution acc.raceCounts
    ethnicityDistribution := createDistribution acc.ethnicityCounts
    stateDistribution := (createDistribution acc.stateCounts).take 15
    cityDistribution := (createDistribution acc.cityCounts).take 20
    livingCount := acc.livingCount
    deceasedCount := acc.deceasedCount
    mortalityRate :=
      if 0 < patients.length then
        ((JNum.ofNat acc.deceasedCount).div (JNum.ofNat patients.length)).mul (JNum.ofNat 100)
      else JNum.ofNat 0
    birthDateRange :=
      { min := sortedBirthDates.head?
        max := sortedBirthDates.getLast?
        minFormatted :=
          match sortedBirthDates.head? with
          | some d => env.fmtDate d
          | none => "N/A"
        maxFormatted :=
          match sortedBirthDates.getLast? with
          | some d => env.fmtDate d
          | none => "N/A" }
    missingBirthDate := acc.missingBirthDate
    missingGender := acc.missingGender
    missingAddress := acc.missingAddress }

/-! ## Encounter analytics (encounterAnalytics module) -/

/-- `calculateLengthOfStay` — hours between two timestamps; absent or
unparsable timestamps and negative spans yield `none`. -/
def calculateLengthOfStay (env : JsEnv) (start endStr : Option String) : Option JNum :=
  if optTruthy start && optTruthy endStr then
    match env.parseDate (start.getD ""), env.parseDate (endStr.getD "") with
    | some startDate, some endDate =>
      let diffMs := endDate.time - startDate.time
      if diffMs < 0 then none
      else some (JNum.div ⟨diffMs, 1⟩ (JNum.ofNat (1000 * 60 * 60)))
    | _, _ => none
  else none

/-- `extractPatientId` — strip a `Patient/` or `urn:uuid:` prefix from the
subject reference, else take it verbatim; absent (falsy) reference yields
`none`. -/
def extractPatientId (reference : Option String) : Option String :=
  if optTruthy reference then
    let r := reference.getD ""
    if List.isPrefixOf "Patient/".data r.data then some (String.mk (r.data.drop 8))
    else if List.isPrefixOf "urn:uuid:".data r.data then some (String.mk (r.data.drop 9))
    else some r
  else none

/-- The fixed code-to-friendly-name lookup table of `getClassDisplay`. -/
def classCodeMap (code : String) : Option String :=
  if code = "AMB" then some "Ambulatory"
  else if code = "EMER" then some "Emergency"
  else if code = "IMP" then some "Inpatient"
  else if code = "ACUTE" then some "Acute"
  else if code = "NONAC" then some "Non-Acute"
  else if code = "OBSENC" then some "Observation"
  else if code = "PRENC" then some "Pre-Admission"
  else if code = "SS" then some "Short Stay"
  else if code = "HH" then some "Home Health"
  else if code = "VR" then some "Virtual"
  else if code = "outpatient" then some "Outpatient"
  else if code = "inpatient" then some "Inpatient"
  else if code = "ambulatory" then some "Ambulatory"
  else if code = "emergency" then some "Emergency"
  else if code = "wellness" then some "Wellness"
  else if code = "urgentcare" then some "Urgent Care"
  else none

/-- `getClassDisplay` — prefer the explicit display text of
`encounter.class`, else map the code through the lookup table (falling back
to the raw code, every friendly name being truthy), else `Unknown`. -/
def getClassDisplay (enc : FhirEncounter) : String :=
  match enc.classField with
  | some c =>
    if optTruthy c.display then c.display.getD ""
    else if optTruthy c.code then
      match classCodeMap (c.code.getD "") with
      | some friendly => friendly
      | none => c.code.getD ""
    else "Unknown"
  | none => "Unknown"

/-- `getTypeDisplay` — from the first entry of the type list: prefer free
text, else the first coding entry's display or code, else `Unknown`;
`Unspecified` when the type list is absent or empty. -/
def getTypeDisplay (enc : FhirEncounter) : String :=
  match enc.type with
  | none => "Unspecified"
  | some [] => "Unspecified"
  | some (firstType :: _) =>
    if optTruthy firstType.text then firstType.text.getD ""
    else
      match firstType.coding with
      | some (c0 :: _) =>
        if optTruthy c0.display then c0.display.getD ""
        else if optTruthy c0.code then c0.code.getD ""
        else "Unknown"
      | _ => "Unknown"

/-- `toMonthKey` — format a parsed date as `YYYY-MM` (month 1-based, padded
to two digits); `none` for an Invalid Date. -/
def toMonthKey (env : JsEnv) (dateStr : String) : Option String :=
  match env.parseDate dateStr with
  | none => none
  | some date => some (String.mk (intChars date.year ++ '-' :: pad2 (intChars (date.month + 1))))

/-- The fixed length-of-stay buckets (upper bound excluded, last bucket
unbounded). -/
def losBuckets : List HistogramBucket :=
  [⟨JNum.ofNat 0, JNum.ofNat 1, "<1 hour", 0⟩,
   ⟨JNum.ofNat 1, JNum.ofNat 4, "1-4 hours", 0⟩,
   ⟨JNum.ofNat 4, JNum.ofNat 8, "4-8 hours", 0⟩,
   ⟨JNum.ofNat 8, JNum.ofNat 24, "8-24 hours", 0⟩,
   ⟨JNum.ofNat 24, JNum.ofNat 48, "1-2 days", 0⟩,
   ⟨JNum.ofNat 48, JNum.ofNat 72, "2-3 days", 0⟩,
   ⟨JNum.ofNat 72, JNum.ofNat 168, "3-7 days", 0⟩,
   ⟨JNum.ofNat 168, JNum.ofNat 336, "1-2 weeks", 0⟩,
   ⟨JNum.ofNat 336, JNum.ofNat 720, "2-4 weeks", 0⟩,
   ⟨JNum.ofNat 720, JNum.inf, ">4 weeks", 0⟩]

/-- `createLosHistogram` — half-open matching `min <= los < max`, first
match wins; buckets left empty are dropped. -/
def createLosHistogram (losHours : List JNum) : List HistogramBucket :=
  (losHours.foldl (fun bs los => bumpFirst (fun b => b.min.leB los && los.ltB b.max) bs)
      losBuckets).filter
    (fun b => decide (0 < b.count))

/-- The fixed encounters-per-patient buckets. -/
def encPerPatientBuckets : List HistogramBucket :=
  [⟨JNum.ofNat 1, JNum.ofNat 1, "1", 0⟩,
   ⟨JNum.ofNat 2, JNum.ofNat 5, "2-5", 0⟩,
   ⟨JNum.ofNat 6, JNum.ofNat 10, "6-10", 0⟩,
   ⟨JNum.ofNat 11, JNum.ofNat 20, "11-20", 0⟩,
   ⟨JNum.ofNat 21, JNum.ofNat 50, "21-50", 0⟩,
   ⟨JNum.ofNat 51, JNum.ofNat 100, "51-100", 0⟩,
   ⟨JNum.ofNat 101, JNum.inf, ">100", 0⟩]

/-- `createEncountersPerPatientHistogram` — closed-interval matching
`min <= count <= max`, first match wins; empty buckets dropped. -/
def createEncountersPerPatientHistogram (counts : List JNum) : List HistogramBucket :=
  (counts.foldl (fun bs c => bumpFirst (fun b => b.min.leB c && c.leB b.max) bs)
      encPerPatientBuckets).filter
    (fun b => decide (0 < b.count))

/-- The statistics record of the encounter-side `calculateStats` (no
standard deviation). -/
structure BasicStats where
  mean : JNum
  median : JNum
  min : JNum
  max : JNum
  deriving Repr, DecidableEq

/-- `calculateStats` (encounter version). -/
def calculateBasicStats (values : List JNum) : BasicStats :=
  if values.length = 0 then ⟨JNum.ofNat 0, JNum.ofNat 0, JNum.ofNat 0, JNum.ofNat 0⟩
  else
    let sorted := jsSort JNum.leB values
    let sum := values.foldl JNum.add (JNum.ofNat 0)
    let mean := sum.div (JNum.ofNat values.length)
    let median :=
      if values.length % 2 = 0 then
        ((sorted.getD (values.length / 2 - 1) (JNum.ofNat 0)).add
            (sorted.getD (values.length / 2) (JNum.ofNat 0))).div (JNum.ofNat 2)
      else sorted.getD (values.length / 2) (JNum.ofNat 0)
    { mean := mean.roundTenth
      median := median.roundTenth
      min := sorted.getD 0 (JNum.ofNat 0)
      max := sorted.getD (sorted.length - 1) (JNum.ofNat 0) }

/-- Length-of-stay statistics with the count of contributing encounters. -/
structure LosStats where
  mean : JNum
  median : JNum
  min : JNum
  max : JNum
  encountersWithLos : Nat
  deriving Repr, DecidableEq

/-- One point of the month time series. -/
structure TimeSeriesPoint where
  date : String
  count : Nat
  label : String
  deriving Repr, DecidableEq

/-- The result record of `analyzeEncounters`. -/
structure EncounterAnalytics where
  totalEncounters : Nat
  uniqueEncounterIds : Nat
  uniquePatientRefs : Nat
  classDistribution : List DistributionItem
  typeDistribution : List DistributionItem
  statusDistribution : List DistributionItem
  encountersByMonth : List TimeSeriesPoint
  periodCoverage : DateRange
  losDistribution : List HistogramBucket
  losStats : LosStats
  encountersPerPatient : List HistogramBucket
  encountersPerPatientStats : BasicStats
  missingPeriodStart : Nat
  missingPeriodEnd : Nat
  missingClass : Nat
  missingSubject : Nat
  deriving Repr, DecidableEq

/-- The mutable locals of the `for (const encounter of encounters)` loop. -/
structure EAccum where
  patientCounts : CountMap
  classCounts : CountMap
  typeCounts : CountMap
  statusCounts : CountMap
  monthCounts : CountMap
  losHours : List JNum
  periodDates : List JSDate
  missingPeriodStart : Nat
  missingPeriodEnd : Nat
  missingClass : Nat
  missingSubject : Nat
  deriving Repr

/-- Loop locals before the first iteration. -/
def initEAccum : EAccum := ⟨[], [], [], [], [], [], [], 0, 0, 0, 0⟩

/-- The start timestamp read by the encounter loop:
`encounter.period?.start`. -/
def periodStartOf (encounter : FhirEncounter) : Option String :=
  encounter.period.bind FhirPeriod.start

/-- The end timestamp read by the encounter loop: `encounter.period?.end`. -/
def periodEndOf (encounter : FhirEncounter) : Option String :=
  encounter.period.bind FhirPeriod.endTime

/-- The Class distribution section of the encounter loop. -/
def stepClass (acc : EAccum) (encounter : FhirEncounter) : EAccum :=
  match encounter.classField with
  | some _ => { acc with classCounts := acc.classCounts.bump (getClassDisplay encounter) }
  | none => { acc with missingClass := acc.missingClass + 1 }

/-- The Type distribution section of the encounter loop. -/
def stepType (acc : EAccum) (encounter : FhirEncounter) : EAccum :=
  { acc with typeCounts := acc.typeCounts.bump (getTypeDisplay encounter) }

/-- The Status distribution section of the encounter loop. -/
def stepStatus (acc : EAccum) (encounter : FhirEncounter) : EAccum :=
  if optTruthy encounter.status then
    { acc with statusCounts := acc.statusCounts.bump (encounter.status.getD "") }
  else acc

/-- The Period analysis section of the encounter loop: tally a missing
start, or record the parsed date and count the month key. -/
def stepPeriod (env : JsEnv) (acc : EAccum) (encounter : FhirEncounter) : EAccum :=
  if optTruthy (periodStartOf encounter) then
    match env.parseDate ((periodStartOf encounter).getD "") with
    | some date =>
      let acc1 := { acc with periodDates := acc.periodDates ++ [date] }
      match toMonthKey env ((periodStartOf encounter).getD "") with
      | some monthKey =>
        if monthKey = "" then acc1
        else { acc1 with monthCounts := acc1.monthCounts.bump monthKey }
      | none => acc1
    | none => acc
  else { acc with missingPeriodStart := acc.missingPeriodStart + 1 }

/-- The missing-end tally of the Period analysis section. -/
def stepPeriodEnd (acc : EAccum) (encounter : FhirEncounter) : EAccum :=
  if optTruthy (periodEndOf encounter) then acc
  else { acc with missingPeriodEnd := acc.missingPeriodEnd + 1 }

/-- The Length of stay section of the encounter loop. -/
def stepLos (env : JsEnv) (acc : EAccum) (encounter : FhirEncounter) : EAccum :=
  match calculateLengthOfStay env (periodStartOf encounter) (periodEndOf encounter) with
  | some los => { acc with losHours := acc.losHours ++ [los] }
  | none => acc

/-- The Patient reference section of the encounter loop (an extracted empty
identifier is falsy, hence counted as missing). -/
def stepSubject (acc : EAccum) (encounter : FhirEncounter) : EAccum :=
  match extractPatientId (encounter.subject.bind FhirSubject.reference) with
  | some patientId =>
    if patientId = "" then { acc with missingSubject := acc.missingSubject + 1 }
    else { acc with patientCounts := acc.patientCounts.bump patientId }
  | none => { acc with missingSubject := acc.missingSubject + 1 }

/-- One iteration of the encounter loop: the source sections in order —
class, type, status, period, period end, length of stay, patient
reference. -/
def encounterStep (env : JsEnv) (acc : EAccum) (encounter : FhirEncounter) : EAccum :=
  stepSubject
    (stepLos env
      (stepPeriodEnd
        (stepPeriod env (stepStatus (stepType (stepClass acc encounter) encounter) encounter)
          encounter)
        encounter)
      encounter)
    encounter

/-- `analyzeEncounters` — single pass over the encounters, then
aggregation. -/
def analyzeEncounters (env : JsEnv) (encounters : List FhirEncounter) :
    EncounterAnalytics :=
  let ids := (encounters.map FhirEncounter.id).filterMap
    (fun o => if optTruthy o then some (o.getD "") else none)
  let acc := encounters.foldl (encounterStep env) initEAccum
  let sortedPeriodDates := jsSort (fun a b => decide (a.time ≤ b.time)) acc.periodDates
  let losDays := acc.losHours.map (fun h => h.div (JNum.ofNat 24))
  let basicLos := calculateBasicStats losDays
  let encountersPerPatientValues := acc.patientCounts.map
    (fun kv => JNum.ofNat kv.2)
  { totalEncounters := encounters.length
    uniqueEncounterIds := jsSetSize ids
    uniquePatientRefs := acc.patientCounts.length
    classDistribution := createDistribution acc.classCounts
    typeDistribution := (createDistribution acc.typeCounts).take 15
    statusDistribution := createDistribution acc.statusCounts
    encountersByMonth :=
      (jsSort (fun a b => strLeB a.1 b.1) acc.monthCounts).map fun kv =>
        { date := kv.1, count := kv.2, label := env.fmtMonthLabel kv.1 }
    periodCoverage :=
      { min := sortedPeriodDates.head?
        max := sortedPeriodDates.getLast?
        minFormatted :=
          match sortedPeriodDates.head? with
          | some d => env.fmtDate d
          | none => "N/A"
        maxFormatted :=
          match sortedPeriodDates.getLast? with
          | some d => env.fmtDate d
          | none => "N/A" }
    losDistribution := createLosHistogram acc.losHours
    losStats :=
      { mean := basicLos.mean, median := basicLos.median, min := basicLos.min
        max := basicLos.max, encountersWithLos := acc.losHours.length }
    encountersPerPatient := createEncountersPerPatientHistogram encountersPerPatientValues
    encountersPerPatientStats := calculateBasicStats encountersPerPatientValues
    missingPeriodStart := acc.missingPeriodStart
    missingPeriodEnd := acc.missingPeriodEnd
    missingClass := acc.missingClass
    missingSubject := acc.missingSubject }

/-! ## Mortality partition (claim about analyzePatients) -/

theorem stepGender_mort (acc : PAccum) (p : FhirPatient) :
    (stepGender acc p).livingCount + (stepGender acc p).deceasedCount
      = acc.livingCount + acc.deceasedCount := by
  unfold stepGender
  split <;> rfl

theorem stepAge_mort (env : JsEnv) (acc : PAccum) (p : FhirPatient) :
    (stepAge env acc p).livingCount + (stepAge env acc p).deceasedCount
      = acc.livingCount + acc.deceasedCount := by
  unfold stepAge
  split <;> rfl

theorem stepBirthDate_mort (env : JsEnv) (acc : PAccum) (p : FhirPatient) :
    (stepBirthDate env acc p).livingCount + (stepBirthDate env acc p).deceasedCount
      = acc.livingCount + acc.deceasedCount := by
  unfold stepBirthDate
  (repeat' split) <;> rfl

theorem stepDeceased_mort (acc : PAccum) (p : FhirPatient) :
    (stepDeceased acc p).livingCount + (stepDeceased acc p).deceasedCount
      = acc.livingCount + acc.deceasedCount + 1 := by
  unfold stepDeceased
  split <;> simp <;> omega

theorem stepRace_mort (acc : PAccum) (p : FhirPatient) :
    (stepRace acc p).livingCount + (stepRace acc p).deceasedCount
      = acc.livingCount + acc.deceasedCount := by
  unfold stepRace
  split <;> rfl

theorem stepEthnicity_mort (acc : PAccum) (p : FhirPatient) :
    (stepEthnicity acc p).livingCount + (stepEthnicity acc p).deceasedCount
      = acc.livingCount + acc.deceasedCount := by
  unfold stepEthnicity
  split <;> rfl

theorem stepAddress_mort (acc : PAccum) (p : FhirPatient) :
    (stepAddress acc p).livingCount + (stepAddress acc p).deceasedCount
      = acc.livingCount + acc.deceasedCount := by
  unfold stepAddress
  (repeat' split) <;> rfl

theorem patientStep_mortality (env : JsEnv) (acc : PAccum) (p : FhirPatient) :
    (patientStep env acc p).livingCount + (patientStep env acc p).deceasedCount
      = acc.livingCount + acc.deceasedCount + 1 := by
  unfold patientStep
  rw [stepAddress_mort, stepEthnicity_mort, stepRace_mort, stepDeceased_mort,
    stepBirthDate_mort, stepAge_mort, stepGender_mort]

theorem foldl_mortality (env : JsEnv) :
    ∀ (ps : List FhirPatient) (acc : PAccum),
      (ps.foldl (patientStep env) acc).livingCount
          + (ps.foldl (patientStep env) acc).deceasedCount
        = acc.livingCount + acc.deceasedCount + ps.length
  | [], acc => by simp
  | p :: ps, acc => by
    have h := foldl_mortality env ps (patientStep env acc p)
    have h2 := patientStep_mortality env acc p
    simp only [List.foldl_cons, List.length_cons] at h ⊢
    omega

/-- C10: every patient is classified as exactly one of deceased (boolean
flag `true` or a truthy death timestamp) or living, so
`livingCount + deceasedCount = totalPatients`. -/
theorem patients_mortality_partition (env : JsEnv) (ps : List FhirPatient) :
    (analyzePatients env ps).livingCount + (analyzePatients env ps).deceasedCount
      = (analyzePatients env ps).totalPatients := by
  have h1 : (analyzePatients env ps).livingCount
      = (ps.foldl (patientStep env) initPAccum).livingCount := rfl
  have h2 : (analyzePatients env ps).deceasedCount
      = (ps.foldl (patientStep env) initPAccum).deceasedCount := rfl
  have h3 : (analyzePatients env ps).totalPatients = ps.length := rfl
  have h4 := foldl_mortality env ps initPAccum
  have h5 : initPAccum.livingCount = 0 := rfl
  have h6 : initPAccum.deceasedCount = 0 := rfl
  rw [h1, h2, h3]
  omega

/-! ## Classification display resolution (claim about analyzeEncounters) -/

theorem stepClass_missing (acc : EAccum) (e : FhirEncounter) :
    (stepClass acc e).missingClass
      = acc.missingClass + (if e.classField = none then 1 else 0) := by
  unfold stepClass
  cases hc : e.classField <;> simp [hc]

theorem stepType_missingClass (acc : EAccum) (e : FhirEncounter) :
    (stepType acc e).missingClass = acc.missingClass := rfl

theorem stepStatus_missingClass (acc : EAccum) (e : FhirEncounter) :
    (stepStatus acc e).missingClass = acc.missingClass := by
  unfold stepStatus
  split <;> rfl

theorem stepPeriod_missingClass (env : JsEnv) (acc : EAccum) (e : FhirEncounter) :
    (stepPeriod env acc e).missingClass = acc.missingClass := by
  unfold stepPeriod
  (repeat' split) <;> rfl

theorem stepPeriodEnd_missingClass (acc : EAccum) (e : FhirEncounter) :
    (stepPeriodEnd acc e).missingClass = acc.missingClass := by
  unfold stepPeriodEnd
  split <;> rfl

theorem stepLos_missingClass (env : JsEnv) (acc : EAccum) (e : FhirEncounter) :
    (stepLos env acc e).missingClass = acc.missingClass := by
  unfold stepLos
  split <;> rfl

theorem stepSubject_missingClass (acc : EAccum) (e : FhirEncounter) :
    (stepSubject acc e).missingClass = acc.missingClass := by
  unfold stepSubject
  (repeat' split) <;> rfl

theorem encounterStep_missingClass (env : JsEnv) (acc : EAccum) (e : FhirEncounter) :
    (encounterStep env acc e).missingClass
      = acc.missingClass + (if e.classField = none then 1 else 0) := by
  unfold encounterStep
  rw [stepSubject_missingClass, stepLos_missingClass, stepPeriodEnd_missingClass,
    stepPeriod_missingClass, stepStatus_missingClass, stepType_missingClass,
    stepClass_missing]

theorem foldl_missingClass (env : JsEnv) :
    ∀ (es : List FhirEncounter) (acc : EAccum),
      (es.foldl (encounterStep env) acc).missingClass
        = acc.missingClass + es.countP (fun e => decide (e.classField = none))
  | [], acc => by simp
  | e :: es, acc => by
    have h := foldl_missingClass env es (encounterStep env acc e)
    have h2 := encounterStep_missingClass env acc e
    simp only [List.foldl_cons, List.countP_cons] at h ⊢
    rw [h, h2]
    by_cases hc : e.classField = none <;> simp [hc] <;> omega

/-- C6: `getClassDisplay` prefers the truthy display text of the class,
else maps a truthy code through the fixed lookup table with the raw code as
fallback, else resolves to Unknown; an encounter with no class field at all
resolves to Unknown and is tallied in `missingClass` (which counts exactly
the encounters without a class field). -/
theorem class_display_resolution (env : JsEnv) (es : List FhirEncounter)
    (enc : FhirEncounter) :
    (∀ c d, enc.classField = some c → c.display = some d → d ≠ "" →
        getClassDisplay enc = d)
    ∧ (∀ c code, enc.classField = some c → optTruthy c.display = false →
        c.code = some code → code ≠ "" →
        getClassDisplay enc
          = (match classCodeMap code with
             | some friendly => friendly
             | none => code))
    ∧ (enc.classField = none → getClassDisplay enc = "Unknown")
    ∧ (analyzeEncounters env es).missingClass
        = es.countP (fun e => decide (e.classField = none)) := by
  refine ⟨?_, ?_, ?_, ?_⟩
  · intro c d h1 h2 h3
    have hd : d.data ≠ [] := by
      intro hnil
      apply h3
      cases d with
      | mk l =>
        simp only at hnil
        subst hnil
        rfl
    have ht : optTruthy c.display = true := by
      rw [h2]
      unfold optTruthy
      simpa using hd
    simp only [getClassDisplay, h1]
    rw [if_pos ht, h2]
    rfl
  · intro c code h1 h2 h3 h4
    have hc : code.data ≠ [] := by
      intro hnil
      apply h4
      cases code with
      | mk l =>
        simp only at hnil
        subst hnil
        rfl
    have ht : optTruthy c.code = true := by
      rw [h3]
      unfold optTruthy
      simpa using hc
    simp only [getClassDisplay, h1]
    rw [if_neg (by simp [h2]), if_pos ht, h3]
    rfl
  · intro h
    simp only [getClassDisplay, h]
  · have h : (analyzeEncounters env es).missingClass
        = (es.foldl (encounterStep env) initEAccum).missingClass := rfl
    rw [h, foldl_missingClass]
    simp [initEAccum]

/-! ## Rational semantics of JNum computations -/

theorem JNum.toRat_add (a b : JNum) (ha : a.den ≠ 0) (hb : b.den ≠ 0) :
    (a.add b).toRat = a.toRat + b.toRat := by
  have ha2 : (a.den : ℚ) ≠ 0 := by exact_mod_cast ha
  have hb2 : (b.den : ℚ) ≠ 0 := by exact_mod_cast hb
  simp only [JNum.add, JNum.toRat]
  push_cast
  rw [div_add_div _ _ ha2 hb2]
  ring_nf

theorem JNum.eqB_iff_toRat (a b : JNum) (ha : 0 < a.den) (hb : 0 < b.den) :
    a.eqB b = true ↔ a.toRat = b.toRat := by
  have ha2 : (a.den : ℚ) ≠ 0 := by exact_mod_cast ha.ne.symm
  have hb2 : (b.den : ℚ) ≠ 0 := by exact_mod_cast hb.ne.symm
  simp only [JNum.eqB, JNum.toRat, decide_eq_true_eq]
  rw [div_eq_div_iff ha2 hb2]
  constructor
  · intro h
    exact_mod_cast h
  · intro h
    exact_mod_cast h

/-! ## Permutation and sortedness facts about the array sort -/

theorem insertLe_perm (le : α → α → Bool) (x : α) :
    ∀ l : List α, (insertLe le x l).Perm (x :: l)
  | [] => List.Perm.refl _
  | y :: ys => by
    unfold insertLe
    split
    · exact List.Perm.refl _
    · exact ((insertLe_perm le x ys).cons y).trans (List.Perm.swap x y ys)

theorem jsSort_perm (le : α → α → Bool) : ∀ l : List α, (jsSort le l).Perm l
  | [] => List.Perm.refl _
  | x :: xs => (insertLe_perm le x (jsSort le xs)).trans ((jsSort_perm le xs).cons x)

theorem insertLe_pairwise (le : α → α → Bool)
    (htot : ∀ a b, le a b = true ∨ le b a = true)
    (htrans : ∀ a b c, le a b = true → le b c = true → le a c = true) (x : α) :
    ∀ l : List α, l.Pairwise (fun a b => le a b = true) →
      (insertLe le x l).Pairwise (fun a b => le a b = true)
  | [], _ => by
    unfold insertLe
    simp
  | y :: ys, h => by
    unfold insertLe
    split
    · rename_i hxy
      refine List.Pairwise.cons ?_ h
      intro b hb
      rcases List.mem_cons.mp hb with rfl | hb
      · exact hxy
      · exact htrans x y b hxy (List.rel_of_pairwise_cons h hb)
    · rename_i hxy
      have hyx : le y x = true := by
        rcases htot x y with h1 | h1
        · exact absurd h1 hxy
        · exact h1
      refine List.Pairwise.cons ?_ (insertLe_pairwise le htot htrans x ys
        (List.Pairwise.of_cons h))
      intro b hb
      rcases List.mem_cons.mp ((insertLe_perm le x ys).mem_iff.mp hb) with rfl | hb
      · exact hyx
      · exact List.rel_of_pairwise_cons h hb

theorem jsSort_pairwise (le : α → α → Bool)
    (htot : ∀ a b, le a b = true ∨ le b a = true)
    (htrans : ∀ a b c, le a b = true → le b c = true → le a c = true) :
    ∀ l : List α, (jsSort le l).Pairwise (fun a b => le a b = true)
  | [] => List.Pairwise.nil
  | x :: xs => by
    unfold jsSort
    exact insertLe_pairwise le htot htrans x (jsSort le xs)
      (jsSort_pairwise le htot htrans xs)

/-! ## Percentage closure of distributions -/

/-- The sum of the `percentage` fields of a distribution. -/
def sumPct (d : List DistributionItem) : JNum :=
  (d.map DistributionItem.percentage).foldl JNum.add (JNum.ofNat 0)

theorem foldadd_den_pos (l : List JNum) (z : JNum) (hz : 0 < z.den)
    (hl : ∀ x ∈ l, 0 < x.den) : 0 < (l.foldl JNum.add z).den := by
  induction l generalizing z with
  | nil => exact hz
  | cons x xs ih =>
    simp only [List.foldl_cons]
    refine ih (z.add x) ?_ (fun y hy => hl y (List.mem_cons_of_mem x hy))
    have hx := hl x (List.mem_cons_self x xs)
    simp only [JNum.add]
    positivity

theorem foldadd_toRat (l : List JNum) (z : JNum) (hz : z.den ≠ 0)
    (hl : ∀ x ∈ l, x.den ≠ 0) :
    (l.foldl JNum.add z).toRat = z.toRat + (l.map JNum.toRat).sum := by
  induction l generalizing z with
  | nil => simp
  | cons x xs ih =>
    simp only [List.foldl_cons, List.map_cons, List.sum_cons]
    rw [ih (z.add x) (by simp [JNum.add]; exact ⟨hz, hl x (List.mem_cons_self x xs)⟩)
        (fun y hy => hl y (List.mem_cons_of_mem x hy)),
      JNum.toRat_add z x hz (hl x (List.mem_cons_self x xs))]
    ring

/-- The percentage stored for count `c` out of positive total `t` denotes
the rational `100 c / t`, with denominator `t`. -/
theorem percentage_shape (c t : Nat) (ht : 0 < t) :
    ((JNum.ofNat c).div (JNum.ofNat t)).mul (JNum.ofNat 100)
      = ⟨(c : Int) * 100, (t : Int)⟩ := by
  simp only [JNum.ofNat, JNum.div, JNum.mul]
  rw [if_neg (by omega)]
  simp only [JNum.mk.injEq]
  constructor <;> push_cast <;> ring

theorem sumPct_createDistribution (m : CountMap) (hm : m ≠ [])
    (hpos : ∀ kv ∈ m, 1 ≤ kv.2) :
    (sumPct (createDistribution m)).eqB (JNum.ofNat 100) = true := by
  set t := (m.map (fun kv => kv.2)).sum with hts
  have htpos : 0 < t := by
    cases m with
    | nil => exact absurd rfl hm
    | cons kv rest =>
      have := hpos kv (List.mem_cons_self kv rest)
      simp only [hts, List.map_cons, List.sum_cons]
      omega
  have htQ : (t : ℚ) ≠ 0 := by exact_mod_cast htpos.ne.symm
  -- the unsorted item list
  set items := m.map (fun kv =>
    ({ label := kv.1, count := kv.2,
       percentage :=
         if 0 < t then ((JNum.ofNat kv.2).div (JNum.ofNat t)).mul (JNum.ofNat 100)
         else JNum.ofNat 0 } : DistributionItem)) with hitems
  have hdist : createDistribution m = jsSort (fun a b => decide (b.count ≤ a.count)) items := by
    rw [createDistribution, hitems, hts]
  -- every percentage has denominator t and denotes 100 c / t
  have hshape : ∀ x ∈ items, ∃ c : Nat,
      x.percentage = ⟨(c : Int) * 100, (t : Int)⟩ := by
    intro x hx
    rcases List.mem_map.mp (hitems ▸ hx) with ⟨kv, _, rfl⟩
    refine ⟨kv.2, ?_⟩
    simp only [if_pos htpos]
    exact percentage_shape kv.2 t htpos
  have hperm : ((createDistribution m).map DistributionItem.percentage).Perm
      (items.map DistributionItem.percentage) := by
    rw [hdist]
    exact (jsSort_perm _ items).map _
  have hmemden : ∀ x ∈ (createDistribution m).map DistributionItem.percentage, 0 < x.den := by
    intro x hx
    rcases List.mem_map.mp hx with ⟨it, hit, rfl⟩
    have hit2 : it ∈ items := by
      have := (jsSort_perm (fun a b => decide (b.count ≤ a.count)) items).mem_iff.mp
        (hdist ▸ hit)
      exact this
    rcases hshape it hit2 with ⟨c, hc⟩
    rw [hc]
    simpa using htpos
  -- the sum denotes 100
  have hsum : (sumPct (createDistribution m)).toRat = 100 := by
    unfold sumPct
    rw [foldadd_toRat _ _ (by simp [JNum.ofNat]) (fun x hx => (hmemden x hx).ne.symm)]
    have h0 : (JNum.ofNat 0).toRat = 0 := by simp [JNum.ofNat, JNum.toRat]
    rw [h0, zero_add]
    have hsums : (((createDistribution m).map DistributionItem.percentage).map JNum.toRat).sum
        = ((items.map DistributionItem.percentage).map JNum.toRat).sum :=
      ((hperm).map JNum.toRat).sum_eq
    rw [hsums, hitems]
    simp only [List.map_map]
    have hfun : ∀ kv ∈ m,
        (JNum.toRat ∘ DistributionItem.percentage ∘ fun kv =>
          ({ label := kv.1, count := kv.2,
             percentage :=
               if 0 < t then ((JNum.ofNat kv.2).div (JNum.ofNat t)).mul (JNum.ofNat 100)
               else JNum.ofNat 0 } : DistributionItem)) kv
          = (100 / (t : ℚ)) * kv.2 := by
      intro kv _
      simp only [Function.comp]
      rw [if_pos htpos, percentage_shape kv.2 t htpos]
      simp only [JNum.toRat]
      push_cast
      field_simp
      ring
    rw [List.map_congr_left hfun]
    rw [List.sum_map_mul_left]
    have hcast : (m.map fun kv => ((kv.2 : ℚ))).sum = ((t : Nat) : ℚ) := by
      rw [hts, Nat.cast_list_sum, List.map_map]
      rfl
    rw [hcast]
    field_simp
  -- back to the boolean equality
  have hden : 0 < (sumPct (createDistribution m)).den := by
    unfold sumPct
    exact foldadd_den_pos _ _ (by simp [JNum.ofNat]) hmemden
  rw [JNum.eqB_iff_toRat _ _ hden (by simp [JNum.ofNat])]
  rw [hsum]
  simp [JNum.ofNat, JNum.toRat]

/-! ## Positivity of the counting maps fed to createDistribution -/

theorem CountMap.bump_pos (k : String) :
    ∀ m : CountMap, (∀ kv ∈ m, 1 ≤ kv.2) → ∀ kv ∈ m.bump k, 1 ≤ kv.2
  | [], _ => by
    unfold CountMap.bump
    simp
  | (k1, c) :: rest, h => by
    unfold CountMap.bump
    split
    · intro kv hkv
      rcases List.mem_cons.mp hkv with rfl | hkv
      · have := h (k1, c) (List.mem_cons_self _ _)
        omega
      · exact h kv (List.mem_cons_of_mem _ hkv)
    · intro kv hkv
      rcases List.mem_cons.mp hkv with rfl | hkv
      · exact h (k1, c) (List.mem_cons_self _ _)
      · exact CountMap.bump_pos k rest (fun kv2 h2 => h kv2 (List.mem_cons_of_mem _ h2))
          kv hkv

/-- Generic preservation of an invariant along a left fold. -/
theorem foldlPreserve {σ : Type u} {β : Type v} (f : σ → β → σ) (P : σ → Prop)
    (hf : ∀ a b, P a → P (f a b)) : ∀ (l : List β) (a : σ), P a → P (l.foldl f a)
  | [], _, h => h
  | b :: l, a, h => foldlPreserve f P hf l (f a b) (hf a b h)

theorem stepGender_frame (a : PAccum) (p : FhirPatient) :
    (stepGender a p).raceCounts = a.raceCounts
    ∧ (stepGender a p).ethnicityCounts = a.ethnicityCounts := by
  unfold stepGender
  split <;> exact ⟨rfl, rfl⟩

theorem stepAge_frame (env : JsEnv) (a : PAccum) (p : FhirPatient) :
    (stepAge env a p).genderCounts = a.genderCounts
    ∧ (stepAge env a p).raceCounts = a.raceCounts
    ∧ (stepAge env a p).ethnicityCounts = a.ethnicityCounts := by
  unfold stepAge
  split <;> exact ⟨rfl, rfl, rfl⟩

theorem stepBirthDate_frame (env : JsEnv) (a : PAccum) (p : FhirPatient) :
    (stepBirthDate env a p).genderCounts = a.genderCounts
    ∧ (stepBirthDate env a p).raceCounts = a.raceCounts
    ∧ (stepBirthDate env a p).ethnicityCounts = a.ethnicityCounts := by
  unfold stepBirthDate
  (repeat' split) <;> exact ⟨rfl, rfl, rfl⟩

theorem stepDeceased_frame (a : PAccum) (p : FhirPatient) :
    (stepDeceased a p).genderCounts = a.genderCounts
    ∧ (stepDeceased a p).raceCounts = a.raceCounts
    ∧ (stepDeceased a p).ethnicityCounts = a.ethnicityCounts := by
  unfold stepDeceased
  split <;> exact ⟨rfl, rfl, rfl⟩

theorem stepRace_frame (a : PAccum) (p : FhirPatient) :
    (stepRace a p).genderCounts = a.genderCounts
    ∧ (stepRace a p).ethnicityCounts = a.ethnicityCounts := by
  unfold stepRace
  split <;> exact ⟨rfl, rfl⟩

theorem stepEthnicity_frame (a : PAccum) (p : FhirPatient) :
    (stepEthnicity a p).genderCounts = a.genderCounts
    ∧ (stepEthnicity a p).raceCounts = a.raceCounts := by
  unfold stepEthnicity
  split <;> exact ⟨rfl, rfl⟩

theorem stepAddress_frame (a : PAccum) (p : FhirPatient) :
    (stepAddress a p).genderCounts = a.genderCounts
    ∧ (stepAddress a p).raceCounts = a.raceCounts
    ∧ (stepAddress a p).ethnicityCounts = a.ethnicityCounts := by
  unfold stepAddress
  (repeat' split) <;> exact ⟨rfl, rfl, rfl⟩

theorem patientStep_genderPos (env : JsEnv) (a : PAccum) (p : FhirPatient)
    (h : ∀ kv ∈ a.genderCounts, 1 ≤ kv.2) :
    ∀ kv ∈ (patientStep env a p).genderCounts, 1 ≤ kv.2 := by
  unfold patientStep
  rw [(stepAddress_frame _ _).1, (stepEthnicity_frame _ _).1, (stepRace_frame _ _).1,
    (stepDeceased_frame _ _).1, (stepBirthDate_frame env _ _).1, (stepAge_frame env _ _).1]
  unfold stepGender
  split
  · exact CountMap.bump_pos _ _ h
  · exact h

theorem patientStep_racePos (env : JsEnv) (a : PAccum) (p : FhirPatient)
    (h : ∀ kv ∈ a.raceCounts, 1 ≤ kv.2) :
    ∀ kv ∈ (patientStep env a p).raceCounts, 1 ≤ kv.2 := by
  unfold patientStep
  rw [(stepAddress_frame _ _).2.1, (stepEthnicity_frame _ _).2]
  unfold stepRace
  split
  · refine CountMap.bump_pos _ _ ?_
    rw [(stepDeceased_frame _ _).2.1, (stepBirthDate_frame env _ _).2.1,
      (stepAge_frame env _ _).2.1, (stepGender_frame _ _).1]
    exact h
  · rw [(stepDeceased_frame _ _).2.1, (stepBirthDate_frame env _ _).2.1,
      (stepAge_frame env _ _).2.1, (stepGender_frame _ _).1]
    exact h

theorem patientStep_ethnicityPos (env : JsEnv) (a : PAccum) (p : FhirPatient)
    (h : ∀ kv ∈ a.ethnicityCounts, 1 ≤ kv.2) :
    ∀ kv ∈ (patientStep env a p).ethnicityCounts, 1 ≤ kv.2 := by
  unfold patientStep
  rw [(stepAddress_frame _ _).2.2]
  unfold stepEthnicity
  split
  · refine CountMap.bump_pos _ _ ?_
    rw [(stepRace_frame _ _).2, (stepDeceased_frame _ _).2.2,
      (stepBirthDate_frame env _ _).2.2, (stepAge_frame env _ _).2.2,
      (stepGender_frame _ _).2]
    exact h
  · rw [(stepRace_frame _ _).2, (stepDeceased_frame _ _).2.2,
      (stepBirthDate_frame env _ _).2.2, (stepAge_frame env _ _).2.2,
      (stepGender_frame _ _).2]
    exact h

theorem stepClass_frame (a : EAccum) (e : FhirEncounter) :
    (stepClass a e).statusCounts = a.statusCounts
    ∧ (stepClass a e).monthCounts = a.monthCounts
    ∧ (stepClass a e).missingPeriodStart = a.missingPeriodStart := by
  unfold stepClass
  split <;> exact ⟨rfl, rfl, rfl⟩

theorem stepType_frame (a : EAccum) (e : FhirEncounter) :
    (stepType a e).classCounts = a.classCounts
    ∧ (stepType a e).statusCounts = a.statusCounts
    ∧ (stepType a e).monthCounts = a.monthCounts
    ∧ (stepType a e).missingPeriodStart = a.missingPeriodStart :=
  ⟨rfl, rfl, rfl, rfl⟩

theorem stepStatus_frame (a : EAccum) (e : FhirEncounter) :
    (stepStatus a e).classCounts = a.classCounts
    ∧ (stepStatus a e).monthCounts = a.monthCounts
    ∧ (stepStatus a e).missingPeriodStart = a.missingPeriodStart := by
  unfold stepStatus
  split <;> exact ⟨rfl, rfl, rfl⟩

theorem stepPeriod_frame (env : JsEnv) (a : EAccum) (e : FhirEncounter) :
    (stepPeriod env a e).classCounts = a.classCounts
    ∧ (stepPeriod env a e).statusCounts = a.statusCounts := by
  unfold stepPeriod
  (repeat' split) <;> exact ⟨rfl, rfl⟩

theorem stepPeriodEnd_frame (a : EAccum) (e : FhirEncounter) :
    (stepPeriodEnd a e).classCounts = a.classCounts
    ∧ (stepPeriodEnd a e).statusCounts = a.statusCounts
    ∧ (stepPeriodEnd a e).monthCounts = a.monthCounts
    ∧ (stepPeriodEnd a e).missingPeriodStart = a.missingPeriodStart := by
  unfold stepPeriodEnd
  split <;> exact ⟨rfl, rfl, rfl, rfl⟩

theorem stepLos_frame (env : JsEnv) (a : EAccum) (e : FhirEncounter) :
    (stepLos env a e).classCounts = a.classCounts
    ∧ (stepLos env a e).statusCounts = a.statusCounts
    ∧ (stepLos env a e).monthCounts = a.monthCounts
    ∧ (stepLos env a e).missingPeriodStart = a.missingPeriodStart := by
  unfold stepLos
  split <;> exact ⟨rfl, rfl, rfl, rfl⟩

theorem stepSubject_frame (a : EAccum) (e : FhirEncounter) :
    (stepSubject a e).classCounts = a.classCounts
    ∧ (stepSubject a e).statusCounts = a.statusCounts
    ∧ (stepSubject a e).monthCounts = a.monthCounts
    ∧ (stepSubject a e).missingPeriodStart = a.missingPeriodStart := by
  unfold stepSubject
  (repeat' split) <;> exact ⟨rfl, rfl, rfl, rfl⟩

theorem encounterStep_classPos (env : JsEnv) (a : EAccum) (e : FhirEncounter)
    (h : ∀ kv ∈ a.classCounts, 1 ≤ kv.2) :
    ∀ kv ∈ (encounterStep env a e).classCounts, 1 ≤ kv.2 := by
  unfold encounterStep
  rw [(stepSubject_frame _ _).1, (stepLos_frame env _ _).1, (stepPeriodEnd_frame _ _).1,
    (stepPeriod_frame env _ _).1, (stepStatus_frame _ _).1, (stepType_frame _ _).1]
  unfold stepClass
  split
  · exact CountMap.bump_pos _ _ h
  · exact h

theorem encounterStep_statusPos (env : JsEnv) (a : EAccum) (e : FhirEncounter)
    (h : ∀ kv ∈ a.statusCounts, 1 ≤ kv.2) :
    ∀ kv ∈ (encounterStep env a e).statusCounts, 1 ≤ kv.2 := by
  unfold encounterStep
  rw [(stepSubject_frame _ _).2.1, (stepLos_frame env _ _).2.1,
    (stepPeriodEnd_frame _ _).2.1, (stepPeriod_frame env _ _).2]
  unfold stepStatus
  split
  · refine CountMap.bump_pos _ _ ?_
    rw [(stepType_frame _ _).2.1, (stepClass_frame _ _).1]
    exact h
  · rw [(stepType_frame _ _).2.1, (stepClass_frame _ _).1]
    exact h

/-- C4 (amended): for the untruncated distributions — gender, race and
ethnicity on the patient side, class and status on the encounter side —
a non-empty distribution has percentages summing to exactly 100 (hence
within 0.01 of 100).  The truncated state (top 15), city (top 20) and type
(top 15) distributions are excluded: truncation drops percentage mass. -/
theorem distribution_percentage_closure (env : JsEnv) (ps : List FhirPatient)
    (es : List FhirEncounter) :
    ((analyzePatients env ps).genderDistribution ≠ [] →
      (sumPct ((analyzePatients env ps).genderDistribution)).eqB (JNum.ofNat 100) = true)
    ∧ ((analyzePatients env ps).raceDistribution ≠ [] →
      (sumPct ((analyzePatients env ps).raceDistribution)).eqB (JNum.ofNat 100) = true)
    ∧ ((analyzePatients env ps).ethnicityDistribution ≠ [] →
      (sumPct ((analyzePatients env ps).ethnicityDistribution)).eqB (JNum.ofNat 100) = true)
    ∧ ((analyzeEncounters env es).classDistribution ≠ [] →
      (sumPct ((analyzeEncounters env es).classDistribution)).eqB (JNum.ofNat 100) = true)
    ∧ ((analyzeEncounters env es).statusDistribution ≠ [] →
      (sumPct ((analyzeEncounters env es).statusDistribution)).eqB (JNum.ofNat 100) = true) := by
  refine ⟨?_, ?_, ?_, ?_, ?_⟩
  · intro hne
    have hfield : (analyzePatients env ps).genderDistribution
        = createDistribution ((ps.foldl (patientStep env) initPAccum).genderCounts) := rfl
    rw [hfield] at hne ⊢
    refine sumPct_createDistribution _ (fun h0 => hne (by rw [h0]; rfl)) ?_
    exact foldlPreserve (patientStep env) (fun a => ∀ kv ∈ a.genderCounts, 1 ≤ kv.2)
      (fun a b hp => patientStep_genderPos env a b hp) ps initPAccum (by simp [initPAccum])
  · intro hne
    have hfield : (analyzePatients env ps).raceDistribution
        = createDistribution ((ps.foldl (patientStep env) initPAccum).raceCounts) := rfl
    rw [hfield] at hne ⊢
    refine sumPct_createDistribution _ (fun h0 => hne (by rw [h0]; rfl)) ?_
    exact foldlPreserve (patientStep env) (fun a => ∀ kv ∈ a.raceCounts, 1 ≤ kv.2)
      (fun a b hp => patientStep_racePos env a b hp) ps initPAccum (by simp [initPAccum])
  · intro hne
    have hfield : (analyzePatients env ps).ethnicityDistribution
        = createDistribution ((ps.foldl (patientStep env) initPAccum).ethnicityCounts) := rfl
    rw [hfield] at hne ⊢
    refine sumPct_createDistribution _ (fun h0 => hne (by rw [h0]; rfl)) ?_
    exact foldlPreserve (patientStep env) (fun a => ∀ kv ∈ a.ethnicityCounts, 1 ≤ kv.2)
      (fun a b hp => patientStep_ethnicityPos env a b hp) ps initPAccum (by simp [initPAccum])
  · intro hne
    have hfield : (analyzeEncounters env es).classDistribution
        = createDistribution ((es.foldl (encounterStep env) initEAccum).classCounts) := rfl
    rw [hfield] at hne ⊢
    refine sumPct_createDistribution _ (fun h0 => hne (by rw [h0]; rfl)) ?_
    exact foldlPreserve (encounterStep env) (fun a => ∀ kv ∈ a.classCounts, 1 ≤ kv.2)
      (fun a b hp => encounterStep_classPos env a b hp) es initEAccum (by simp [initEAccum])
  · intro hne
    have hfield : (analyzeEncounters env es).statusDistribution
        = createDistribution ((es.foldl (encounterStep env) initEAccum).statusCounts) := rfl
    rw [hfield] at hne ⊢
    refine sumPct_createDistribution _ (fun h0 => hne (by rw [h0]; rfl)) ?_
    exact foldlPreserve (encounterStep env) (fun a => ∀ kv ∈ a.statusCounts, 1 ≤ kv.2)
      (fun a b hp => encounterStep_statusPos env a b hp) es initEAccum (by simp [initEAccum])

/-- A trivial host environment for concrete witnesses that do not exercise
dates. -/
def envTrivial : JsEnv :=
  { jsonParse := fun _ => .error "Unexpected token"
    parseDate := fun _ => none
    now := ⟨0, 0, 0, 0⟩
    fmtDate := fun _ => "date"
    fmtMonthLabel := fun s => s }

/-- An encounter whose class carries an explicit display text. -/
def encDisplay : FhirEncounter :=
  { id := none, status := none
    classField := some { code := some "AMB", display := some "ambulatory care" }
    type := none, period := none, subject := none }

/-- An encounter whose class carries only the short code AMB. -/
def encCode : FhirEncounter :=
  { id := none, status := none
    classField := some { code := some "AMB", display := none }
    type := none, period := none, subject := none }

/-- An encounter with no class field at all. -/
def encNoClass : FhirEncounter :=
  { id := none, status := none, classField := none
    type := none, period := none, subject := none }

/-- Witness for C6 at concrete encounters: display preferred, code mapped
through the table, missing class resolves to Unknown and is tallied. -/
theorem class_display_resolution_witness :
    getClassDisplay encDisplay = "ambulatory care"
    ∧ getClassDisplay encCode = "Ambulatory"
    ∧ getClassDisplay encNoClass = "Unknown"
    ∧ (analyzeEncounters envTrivial [encNoClass, encCode]).missingClass = 1 := by
  refine ⟨?_, ?_, ?_, ?_⟩
  · exact (class_display_resolution envTrivial [] encDisplay).1
      { code := some "AMB", display := some "ambulatory care" } "ambulatory care"
      rfl rfl (by decide)
  · have h := (class_display_resolution envTrivial [] encCode).2.1
      { code := some "AMB", display := none } "AMB" rfl (by decide) rfl (by decide)
    simpa [classCodeMap] using h
  · exact (class_display_resolution envTrivial [] encNoClass).2.2.1 rfl
  · have h := (class_display_resolution envTrivial [encNoClass, encCode]
      encNoClass).2.2.2
    rw [h]
    decide

/-- 16 patients with 16 distinct primary-address states. -/
def ps16 : List FhirPatient :=
  (List.range 16).map fun i =>
    { id := none, gender := none, birthDate := none, deceasedBoolean := none
      deceasedDateTime := none, extension := none
      address := some [{ state := some (String.mk ('S' :: natChars i)), city := none }] }

/-- Counterexample to C4 as stated: with 16 distinct states the state
distribution is truncated to its top 15 entries, and the surviving
percentages sum to 93.75, not within 0.01 of 100. -/
theorem distribution_percentage_counterexample :
    (analyzePatients envTrivial ps16).stateDistribution ≠ []
    ∧ (((sumPct ((analyzePatients envTrivial ps16).stateDistribution)).sub
        (JNum.ofNat 100)).abs.leB ⟨1, 100⟩) = false := by
  constructor
  · decide
  · decide

/-- A US Core race extension carrying an ombCategory display. -/
def raceExtension : FhirExtension :=
  .mk (some US_CORE_RACE_URL)
    (some [.mk (some "ombCategory") none (some { code := none, display := some "White" }) none])
    none none

/-- A US Core ethnicity extension carrying an ombCategory display. -/
def ethnicityExtension : FhirExtension :=
  .mk (some US_CORE_ETHNICITY_URL)
    (some [.mk (some "ombCategory") none
      (some { code := none, display := some "Not Hispanic or Latino" }) none])
    none none

/-- One patient populating the gender, race and ethnicity distributions. -/
def psPct : List FhirPatient :=
  [{ id := none, gender := some "female", birthDate := none, deceasedBoolean := none
     deceasedDateTime := none, extension := some [raceExtension, ethnicityExtension]
     address := none }]

/-- One encounter populating the class and status distributions. -/
def esPct : List FhirEncounter :=
  [{ id := none, status := some "finished"
     classField := some { code := some "AMB", display := none }
     type := none, period := none, subject := none }]

/-- Witness for the amended C4 at concrete inputs: each untruncated
distribution is non-empty and its percentages sum to exactly 100. -/
theorem distribution_percentage_closure_witness :
    (sumPct ((analyzePatients envTrivial psPct).genderDistribution)).eqB
        (JNum.ofNat 100) = true
    ∧ (sumPct ((analyzePatients envTrivial psPct).raceDistribution)).eqB
        (JNum.ofNat 100) = true
    ∧ (sumPct ((analyzePatients envTrivial psPct).ethnicityDistribution)).eqB
        (JNum.ofNat 100) = true
    ∧ (sumPct ((analyzeEncounters envTrivial esPct).classDistribution)).eqB
        (JNum.ofNat 100) = true
    ∧ (sumPct ((analyzeEncounters envTrivial esPct).statusDistribution)).eqB
        (JNum.ofNat 100) = true := by
  refine ⟨?_, ?_, ?_, ?_, ?_⟩
  · exact (distribution_percentage_closure envTrivial psPct esPct).1 (by decide)
  · exact (distribution_percentage_closure envTrivial psPct esPct).2.1 (by decide)
  · exact (distribution_percentage_closure envTrivial psPct esPct).2.2.1 (by decide)
  · exact (distribution_percentage_closure envTrivial psPct esPct).2.2.2.1 (by decide)
  · exact (distribution_percentage_closure envTrivial psPct esPct).2.2.2.2 (by decide)

/-! ## Histogram bucket coverage -/

/-- Total of the bucket counts of a histogram. -/
def sumCounts (bs : List HistogramBucket) : Nat := (bs.map HistogramBucket.count).sum

theorem sumCounts_bumpFirst (p : HistogramBucket → Bool) :
    ∀ bs : List HistogramBucket,
      sumCounts (bumpFirst p bs) = sumCounts bs + (if bs.any p then 1 else 0)
  | [] => by simp [bumpFirst, sumCounts]
  | b :: bs => by
    unfold bumpFirst
    by_cases hb : p b
    · rw [if_pos hb]
      simp only [sumCounts, List.map_cons, List.sum_cons, List.any_cons, hb,
        Bool.true_or, if_pos]
      omega
    · rw [if_neg hb]
      have h := sumCounts_bumpFirst p bs
      simp only [sumCounts, List.map_cons, List.sum_cons, List.any_cons, hb,
        Bool.false_or] at h ⊢
      omega

theorem bumpFirst_any (p q : HistogramBucket → Bool)
    (hp : ∀ b n, p { b with count := n } = p b) :
    ∀ bs : List HistogramBucket, (bumpFirst q bs).any p = bs.any p
  | [] => rfl
  | b :: bs => by
    unfold bumpFirst
    by_cases hb : q b
    · simp [hb, hp b (b.count + 1)]
    · simp [hb, bumpFirst_any p q hp bs]

theorem sumCounts_histFold (pred : JNum → HistogramBucket → Bool)
    (hp : ∀ x b n, pred x { b with count := n } = pred x b) :
    ∀ (vs : List JNum) (bs : List HistogramBucket),
      sumCounts (vs.foldl (fun bs v => bumpFirst (pred v) bs) bs)
        = sumCounts bs + vs.countP (fun v => bs.any (pred v))
  | [], bs => by simp
  | v :: vs, bs => by
    have ih := sumCounts_histFold pred hp vs (bumpFirst (pred v) bs)
    simp only [List.foldl_cons, List.countP_cons] at ih ⊢
    rw [ih, sumCounts_bumpFirst]
    have hcong : vs.countP (fun w => (bumpFirst (pred v) bs).any (pred w))
        = vs.countP (fun w => bs.any (pred w)) :=
      List.countP_congr (fun w _ => by rw [bumpFirst_any _ _ (hp w) bs])
    rw [hcong]
    by_cases ha : bs.any (pred v) <;> simp [ha] <;> omega

theorem sumCounts_filter_pos :
    ∀ bs : List HistogramBucket,
      sumCounts (bs.filter fun b => decide (0 < b.count)) = sumCounts bs
  | [] => rfl
  | b :: bs => by
    have ih := sumCounts_filter_pos bs
    simp only [sumCounts] at ih ⊢
    rw [List.filter_cons]
    by_cases hb : 0 < b.count
    · simp [hb, ih]
    · have hb0 : b.count = 0 := by omega
      simp [hb, ih, hb0]

theorem ageBuckets_cover (a : Nat) (h : a ≤ 120) :
    ageBuckets.any (fun b => b.min.leB (JNum.ofNat a) && (JNum.ofNat a).leB b.max)
      = true := by
  have h2 : (a : Int) ≤ 120 := by exact_mod_cast h
  simp only [ageBuckets, List.any_cons, List.any_nil, JNum.leB, JNum.ofNat,
    Bool.or_eq_true, Bool.and_eq_true, decide_eq_true_eq, Bool.or_false]
  omega

theorem losBuckets_cover (x : JNum) (hnum : 0 ≤ x.num) (hden : 0 < x.den) :
    losBuckets.any (fun b => b.min.leB x && x.ltB b.max) = true := by
  simp only [losBuckets, List.any_cons, List.any_nil, JNum.leB, JNum.ltB, JNum.ofNat,
    JNum.inf, Bool.or_eq_true, Bool.and_eq_true, decide_eq_true_eq, Bool.or_false]
  omega

theorem encBuckets_cover (c : Nat) (h : 1 ≤ c) :
    encPerPatientBuckets.any
      (fun b => b.min.leB (JNum.ofNat c) && (JNum.ofNat c).leB b.max) = true := by
  have h2 : (1 : Int) ≤ (c : Int) := by exact_mod_cast h
  simp only [encPerPatientBuckets, List.any_cons, List.any_nil, JNum.leB, JNum.ofNat,
    JNum.inf, Bool.or_eq_true, Bool.and_eq_true, decide_eq_true_eq, Bool.or_false]
  omega

/-- C5 (amended): each histogram assigns every in-range value to exactly one
bucket (the first matching one) and the bucket counts total the number of
values: for the age histogram this holds for integer ages up to 120 (the
90+ bucket matches only up to 120, so larger ages fall into no bucket);
the length-of-stay histogram covers every nonnegative duration and the
encounters-per-patient histogram every count of at least 1, so for those
the totals always equal the number of input values. -/
theorem histogram_bucket_coverage :
    (∀ ages : List Nat, (∀ a ∈ ages, a ≤ 120) →
      sumCounts (createAgeHistogram (ages.map JNum.ofNat)) = ages.length)
    ∧ (∀ los : List JNum, (∀ x ∈ los, 0 ≤ x.num ∧ 0 < x.den) →
      sumCounts (createLosHistogram los) = los.length)
    ∧ (∀ cs : List Nat, (∀ c ∈ cs, 1 ≤ c) →
      sumCounts (createEncountersPerPatientHistogram (cs.map JNum.ofNat)) = cs.length) := by
  refine ⟨?_, ?_, ?_⟩
  · intro ages h
    unfold createAgeHistogram
    have hfold := sumCounts_histFold (fun v b => b.min.leB v && v.leB b.max)
      (fun x b n => rfl) (ages.map JNum.ofNat) ageBuckets
    rw [hfold]
    have h0 : sumCounts ageBuckets = 0 := by decide
    rw [h0, List.countP_eq_length.mpr, List.length_map]
    · omega
    · intro v hv
      rcases List.mem_map.mp hv with ⟨a, ha, rfl⟩
      exact ageBuckets_cover a (h a ha)
  · intro los h
    unfold createLosHistogram
    have hfold := sumCounts_histFold (fun v b => b.min.leB v && v.ltB b.max)
      (fun x b n => rfl) los losBuckets
    rw [sumCounts_filter_pos, hfold]
    have h0 : sumCounts losBuckets = 0 := by decide
    rw [h0, List.countP_eq_length.mpr]
    · omega
    · intro v hv
      exact losBuckets_cover v (h v hv).1 (h v hv).2
  · intro cs h
    unfold createEncountersPerPatientHistogram
    have hfold := sumCounts_histFold (fun v b => b.min.leB v && v.leB b.max)
      (fun x b n => rfl) (cs.map JNum.ofNat) encPerPatientBuckets
    rw [sumCounts_filter_pos, hfold]
    have h0 : sumCounts encPerPatientBuckets = 0 := by decide
    rw [h0, List.countP_eq_length.mpr, List.length_map]
    · omega
    · intro v hv
      rcases List.mem_map.mp hv with ⟨c, hc, rfl⟩
      exact encBuckets_cover c (h c hc)

/-- Witness for the amended C5 at concrete value lists. -/
theorem histogram_bucket_coverage_witness :
    sumCounts (createAgeHistogram ([25, 95].map JNum.ofNat)) = 2
    ∧ sumCounts (createLosHistogram [⟨5, 2⟩]) = 1
    ∧ sumCounts (createEncountersPerPatientHistogram ([3].map JNum.ofNat)) = 1 :=
  ⟨histogram_bucket_coverage.1 [25, 95] (by decide),
   histogram_bucket_coverage.2.1 [⟨5, 2⟩] (by decide),
   histogram_bucket_coverage.2.2 [3] (by decide)⟩

/-- A host environment that parses exactly the birth date 1890-01-01 and
whose current date is 2026-10-12. -/
def envOld : JsEnv :=
  { jsonParse := fun _ => .error "Unexpected token"
    parseDate := fun s => if s = "1890-01-01" then some ⟨-2524521600000, 1890, 0, 1⟩ else none
    now := ⟨1760227200000, 2026, 9, 12⟩
    fmtDate := fun _ => "date"
    fmtMonthLabel := fun s => s }

/-- A single patient born in 1890 (age 136 at the 2026 clock). -/
def psOld : List FhirPatient :=
  [{ id := none, gender := none, birthDate := some "1890-01-01", deceasedBoolean := none
     deceasedDateTime := none, extension := none, address := none }]

/-- Counterexample to C5 as stated: this patient has a defined age (136),
yet the age histogram assigns it to no bucket — the final bucket only
matches up to 120 — so the bucket counts sum to 0, not to the number of
defined ages (1). -/
theorem histogram_coverage_counterexample :
    calculateAge envOld (some "1890-01-01") none = some 136
    ∧ sumCounts ((analyzePatients envOld psOld).ageDistribution) = 0 := by
  constructor
  · decide
  · decide

/-! ## The month-bucketed time series -/

/-- The month key the loop counts for an encounter: present exactly when
the start timestamp is truthy and parses as a valid date. -/
def monthKeyOf (env : JsEnv) (e : FhirEncounter) : Option String :=
  if optTruthy (periodStartOf e) then toMonthKey env ((periodStartOf e).getD "")
  else none

theorem lexLe_total : ∀ a b : List Char, lexLe a b = true ∨ lexLe b a = true
  | [], _ => Or.inl rfl
  | _ :: _, [] => Or.inr rfl
  | a :: as, b :: bs => by
    unfold lexLe
    by_cases h1 : a.toNat < b.toNat
    · left
      simp [h1]
    · by_cases h2 : b.toNat < a.toNat
      · right
        simp [h1, h2]
      · rcases lexLe_total as bs with h | h <;> simp [h1, h2, h]

theorem lexLe_trans : ∀ a b c : List Char,
    lexLe a b = true → lexLe b c = true → lexLe a c = true
  | [], _, _, _, _ => rfl
  | a :: as, [], _, hab, _ => by simp [lexLe] at hab
  | a :: as, b :: bs, [], _, hbc => by simp [lexLe] at hbc
  | a :: as, b :: bs, c :: cs, hab, hbc => by
    unfold lexLe at hab hbc ⊢
    by_cases h1 : a.toNat < b.toNat <;> by_cases h2 : b.toNat < a.toNat <;>
      by_cases h3 : b.toNat < c.toNat <;> by_cases h4 : c.toNat < b.toNat <;>
        simp [h1, h2, h3, h4] at hab hbc ⊢ <;>
          first
          | omega
          | (constructor <;> omega)
          | (refine Or.inr ⟨by omega, ?_⟩
             have hac : as = as := rfl
             exact lexLe_trans as bs cs (by tauto) (by tauto))

theorem strLeB_total (a b : String) : strLeB a b = true ∨ strLeB b a = true :=
  lexLe_total a.data b.data

theorem strLeB_trans (a b c : String) (h1 : strLeB a b = true) (h2 : strLeB b c = true) :
    strLeB a c = true :=
  lexLe_trans a.data b.data c.data h1 h2

theorem toMonthKey_parse (env : JsEnv) (s : String) (d : JSDate)
    (h : env.parseDate s = some d) :
    toMonthKey env s = some (String.mk (intChars d.year ++ '-' :: pad2 (intChars (d.month + 1)))) := by
  unfold toMonthKey
  rw [h]

theorem toMonthKey_ne_empty (env : JsEnv) (s k : String)
    (h : toMonthKey env s = some k) : ¬(k = "") := by
  unfold toMonthKey at h
  cases hd : env.parseDate s with
  | none => rw [hd] at h; cases h
  | some d =>
    rw [hd] at h
    intro hk
    have h2 : k.data = intChars d.year ++ '-' :: pad2 (intChars (d.month + 1)) := by
      cases h
      rfl
    rw [hk] at h2
    have h3 : ([] : List Char) = intChars d.year ++ '-' :: pad2 (intChars (d.month + 1)) := h2
    exact absurd h3.symm (by simp)

theorem stepPeriod_missingStart (env : JsEnv) (acc : EAccum) (e : FhirEncounter) :
    (stepPeriod env acc e).missingPeriodStart
      = acc.missingPeriodStart + (if optTruthy (periodStartOf e) then 0 else 1) := by
  unfold stepPeriod
  (repeat' split) <;> simp_all

theorem encounterStep_missingStart (env : JsEnv) (acc : EAccum) (e : FhirEncounter) :
    (encounterStep env acc e).missingPeriodStart
      = acc.missingPeriodStart + (if optTruthy (periodStartOf e) then 0 else 1) := by
  unfold encounterStep
  rw [(stepSubject_frame _ _).2.2.2, (stepLos_frame env _ _).2.2.2,
    (stepPeriodEnd_frame _ _).2.2.2, stepPeriod_missingStart,
    (stepStatus_frame _ _).2.2, (stepType_frame _ _).2.2.2, (stepClass_frame _ _).2.2]

theorem stepPeriod_month (env : JsEnv) (acc : EAccum) (e : FhirEncounter) :
    (stepPeriod env acc e).monthCounts
      = (match monthKeyOf env e with
         | some k => acc.monthCounts.bump k
         | none => acc.monthCounts) := by
  unfold stepPeriod monthKeyOf
  by_cases hs : optTruthy (periodStartOf e)
  · simp only [hs, if_pos]
    cases hd : env.parseDate ((periodStartOf e).getD "") with
    | none =>
      have hk : toMonthKey env ((periodStartOf e).getD "") = none := by
        unfold toMonthKey
        rw [hd]
      simp [hk]
    | some d =>
      have hk := toMonthKey_parse env ((periodStartOf e).getD "") d hd
      have hne := toMonthKey_ne_empty env ((periodStartOf e).getD "") _ hk
      simp only [hk]
      rw [if_neg hne]
  · simp [hs]

theorem encounterStep_month (env : JsEnv) (acc : EAccum) (e : FhirEncounter) :
    (encounterStep env acc e).monthCounts
      = (match monthKeyOf env e with
         | some k => acc.monthCounts.bump k
         | none => acc.monthCounts) := by
  unfold encounterStep
  rw [(stepSubject_frame _ _).2.2.1, (stepLos_frame env _ _).2.2.1,
    (stepPeriodEnd_frame _ _).2.2.1, stepPeriod_month,
    (stepStatus_frame _ _).2.1, (stepType_frame _ _).2.2.1, (stepClass_frame _ _).2.1]

theorem bump_filter_sum (k : String) :
    ∀ (m : CountMap) (k1 : String),
      (((m.bump k1).filter (fun kv => decide (kv.1 = k))).map Prod.snd).sum
        = ((m.filter (fun kv => decide (kv.1 = k))).map Prod.snd).sum
          + (if k1 = k then 1 else 0)
  | [], k1 => by
    unfold CountMap.bump
    by_cases h : k1 = k <;> simp [List.filter_cons, h]
  | (k2, c) :: rest, k1 => by
    unfold CountMap.bump
    by_cases h21 : k2 = k1
    · subst h21
      by_cases h2k : k2 = k <;> simp [List.filter_cons, h2k] <;> omega
    · simp only [h21, if_neg, if_false]
      by_cases h2k : k2 = k <;>
        simp [List.filter_cons, h2k, bump_filter_sum k rest k1] <;> omega

theorem fold_month_sum (env : JsEnv) (k : String) :
    ∀ (es : List FhirEncounter) (acc : EAccum),
      ((((es.foldl (encounterStep env) acc).monthCounts).filter
          (fun kv => decide (kv.1 = k))).map Prod.snd).sum
        = ((acc.monthCounts.filter (fun kv => decide (kv.1 = k))).map Prod.snd).sum
          + es.countP (fun e => decide (monthKeyOf env e = some k))
  | [], acc => by simp
  | e :: es, acc => by
    have ih := fold_month_sum env k es (encounterStep env acc e)
    simp only [List.foldl_cons, List.countP_cons] at ih ⊢
    rw [ih, encounterStep_month]
    cases hm : monthKeyOf env e with
    | none => simp [hm]
    | some k1 =>
      rw [bump_filter_sum]
      by_cases hk : k1 = k
      · subst hk
        simp [hm]
        omega
      · have : ¬(monthKeyOf env e = some k) := by
          rw [hm]
          simp [hk]
        simp [this, hk]

theorem fold_missingStart (env : JsEnv) :
    ∀ (es : List FhirEncounter) (acc : EAccum),
      (es.foldl (encounterStep env) acc).missingPeriodStart
        = acc.missingPeriodStart + es.countP (fun e => !(optTruthy (periodStartOf e)))
  | [], acc => by simp
  | e :: es, acc => by
    have ih := fold_missingStart env es (encounterStep env acc e)
    simp only [List.foldl_cons, List.countP_cons] at ih ⊢
    rw [ih, encounterStep_missingStart]
    by_cases hs : optTruthy (periodStartOf e) <;> simp [hs] <;> omega

/-- C7 (amended): records with an absent (falsy) start are tallied in
`missingPeriodStart`; records with a present but unparsable start are
excluded from the month series but are NOT tallied (the missing-start count
only counts absent starts); the series is sorted ascending by month key,
and for every key its total count is the number of encounters whose start
is present and parses to that calendar year-month. -/
theorem month_series_characterization (env : JsEnv) (es : List FhirEncounter) :
    (analyzeEncounters env es).missingPeriodStart
        = es.countP (fun e => !(optTruthy (periodStartOf e)))
    ∧ ((analyzeEncounters env es).encountersByMonth).Pairwise
        (fun a b => strLeB a.date b.date = true)
    ∧ ∀ k : String,
        ((((analyzeEncounters env es).encountersByMonth).filter
            (fun pt => decide (pt.date = k))).map TimeSeriesPoint.count).sum
          = es.countP (fun e => decide (monthKeyOf env e = some k)) := by
  have hser : (analyzeEncounters env es).encountersByMonth
      = (jsSort (fun a b => strLeB a.1 b.1)
          ((es.foldl (encounterStep env) initEAccum).monthCounts)).map
        (fun kv => (⟨kv.1, kv.2, env.fmtMonthLabel kv.1⟩ : TimeSeriesPoint)) := rfl
  refine ⟨?_, ?_, ?_⟩
  · have h : (analyzeEncounters env es).missingPeriodStart
        = (es.foldl (encounterStep env) initEAccum).missingPeriodStart := rfl
    rw [h, fold_missingStart]
    simp [initEAccum]
  · rw [hser]
    rw [List.pairwise_map]
    exact jsSort_pairwise (fun a b : String × Nat => strLeB a.1 b.1)
      (fun a b => strLeB_total a.1 b.1)
      (fun a b c => strLeB_trans a.1 b.1 c.1) _
  · intro k
    rw [hser]
    have hfm : ∀ l : List (String × Nat),
        (l.map (fun kv => (⟨kv.1, kv.2, env.fmtMonthLabel kv.1⟩ : TimeSeriesPoint))).filter
            (fun pt => decide (pt.date = k))
          = (l.filter (fun kv => decide (kv.1 = k))).map
              (fun kv => (⟨kv.1, kv.2, env.fmtMonthLabel kv.1⟩ : TimeSeriesPoint)) := by
      intro l
      induction l with
      | nil => rfl
      | cons kv rest ih =>
        by_cases h : kv.1 = k <;> simp [List.filter_cons, h, ih]
    rw [hfm, List.map_map]
    have hperm := (jsSort_perm (fun a b : String × Nat => strLeB a.1 b.1)
      ((es.foldl (encounterStep env) initEAccum).monthCounts)).filter
      (fun kv => decide (kv.1 = k))
    have hsum := (hperm.map Prod.snd).sum_eq
    have hcomp : (TimeSeriesPoint.count ∘ fun kv : String × Nat =>
        (⟨kv.1, kv.2, env.fmtMonthLabel kv.1⟩ : TimeSeriesPoint)) = Prod.snd := rfl
    rw [hcomp]
    rw [hsum]
    have hfold := fold_month_sum env k es initEAccum
    simp only [initEAccum, List.filter_nil, List.map_nil, List.sum_nil, Nat.zero_add] at hfold
    exact hfold

/-- An encounter whose period start is present but not a parsable date. -/
def encBadStart : FhirEncounter :=
  { id := none, status := none, classField := none, type := none
    period := some { start := some "garbage", endTime := none }, subject := none }

/-- Counterexample to C7 as stated: this encounter has a present but
invalid start timestamp (the host date parser rejects it); it is excluded
from the month series, yet `missingPeriodStart` stays 0 — present-but-invalid
starts are not tallied in the missing-start count. -/
theorem month_series_counterexample :
    optTruthy (periodStartOf encBadStart) = true
    ∧ envTrivial.parseDate ((periodStartOf encBadStart).getD "") = none
    ∧ (analyzeEncounters envTrivial [encBadStart]).encountersByMonth = []
    ∧ (analyzeEncounters envTrivial [encBadStart]).missingPeriodStart = 0 := by
  refine ⟨?_, ?_, ?_, ?_⟩ <;> decide

/-! ## The parse-then-analyze pipeline -/

/-- Read a string-valued property (the TypeScript structural cast performs
no conversion; a non-string value behaves as absent for the string reads
the analyzer does). -/
def asStrOpt : JsValue → Option String
  | .str s => some s
  | _ => none

/-- Read a boolean-valued property. -/
def asBoolOpt : JsValue → Option Bool
  | .bool b => some b
  | _ => none

/-- Read a `coding`-shaped property. -/
def asCodingOpt (v : JsValue) : Option FhirCoding :=
  match v with
  | .obj _ => some { code := asStrOpt (jsGet v "code"), display := asStrOpt (jsGet v "display") }
  | _ => none

/-- Read an extension tree, with fuel bounding the nesting depth.  The
analyzers read extensions at most two levels deep (category entry inside
the race and ethnicity extensions), so the fixed fuel of `asPatient` is
observationally equivalent to the no-op TypeScript cast. -/
def asExtF : Nat → JsValue → FhirExtension
  | 0, v =>
    .mk (asStrOpt (jsGet v "url")) none (asCodingOpt (jsGet v "valueCoding"))
      (asStrOpt (jsGet v "valueString"))
  | n + 1, v =>
    .mk (asStrOpt (jsGet v "url"))
      (match jsGet v "extension" with
       | .arr xs => some (xs.map (asExtF n))
       | _ => none)
      (asCodingOpt (jsGet v "valueCoding"))
      (asStrOpt (jsGet v "valueString"))

/-- Read an address entry. -/
def asAddress (v : JsValue) : FhirAddress :=
  { state := asStrOpt (jsGet v "state"), city := asStrOpt (jsGet v "city") }

/-- The TypeScript structural cast of a parsed record to the `Patient`
shape: each field the analyzer reads, read off the runtime value. -/
def asPatient (v : JsValue) : FhirPatient :=
  { id := asStrOpt (jsGet v "id")
    gender := asStrOpt (jsGet v "gender")
    birthDate := asStrOpt (jsGet v "birthDate")
    deceasedBoolean := asBoolOpt (jsGet v "deceasedBoolean")
    deceasedDateTime := asStrOpt (jsGet v "deceasedDateTime")
    extension :=
      match jsGet v "extension" with
      | .arr xs => some (xs.map (asExtF 100))
      | _ => none
    address :=
      match jsGet v "address" with
      | .arr xs => some (xs.map asAddress)
      | _ => none }

/-- The `isPatient` type guard of the FHIR types module —
`resource.resourceType === 'Patient'` — which the app shell applies
(`resources.filter(isPatient)`) before routing records into the patient
analyzer. -/
def isPatientGuard (v : JsValue) : Bool := jsStrictEq (kindOf v) (.str "Patient")

/-- The parse-then-analyze pipeline for patient data as wired in the app
shell: parse the text, filter the records by the type guard, cast, and
analyze.  Pure by construction: it mutates nothing and reads only its
arguments. -/
def pipelinePatients (env : JsEnv) (perfElapsed : JNum) (input : String) :
    ParseResult × PatientAnalytics :=
  let r := parseNdjson env.jsonParse perfElapsed input
  (r, analyzePatients env ((r.resources.filter isPatientGuard).map asPatient))

/-- C8 (amended): two pipeline runs on the same input produce identical
results apart from the elapsed-time field provided the host behaves the
same — same JSON parser, same date parser and formatters, and the same
current date reported by the clock.  (The unamended claim fails because
the age computation reads the current date: see the counterexample.) -/
theorem pipeline_deterministic (env1 env2 : JsEnv) (perf1 perf2 : JNum) (x : String)
    (hj : env1.jsonParse = env2.jsonParse) (hd : env1.parseDate = env2.parseDate)
    (hn : env1.now = env2.now) (hf : env1.fmtDate = env2.fmtDate)
    (hm : env1.fmtMonthLabel = env2.fmtMonthLabel) :
    { (pipelinePatients env1 perf1 x).1 with parseTimeMs := JNum.ofNat 0 }
        = { (pipelinePatients env2 perf2 x).1 with parseTimeMs := JNum.ofNat 0 }
    ∧ (pipelinePatients env1 perf1 x).2 = (pipelinePatients env2 perf2 x).2 := by
  cases env1
  cases env2
  simp only at hj hd hn hf hm
  subst hj hd hn hf hm
  exact ⟨rfl, rfl⟩

/-- Witness for the amended C8: two runs with different performance-counter
readings agree on everything but the elapsed-time field. -/
theorem pipeline_deterministic_witness :
    { (pipelinePatients envTrivial (JNum.ofNat 0) "x").1 with parseTimeMs := JNum.ofNat 0 }
        = { (pipelinePatients envTrivial (JNum.ofNat 7) "x").1 with parseTimeMs := JNum.ofNat 0 }
    ∧ (pipelinePatients envTrivial (JNum.ofNat 0) "x").2
        = (pipelinePatients envTrivial (JNum.ofNat 7) "x").2 :=
  pipeline_deterministic envTrivial envTrivial (JNum.ofNat 0) (JNum.ofNat 7) "x"
    rfl rfl rfl rfl rfl

/-- A single-line Patient payload. -/
def patientLine : String := "\x7b\"resourceType\":\"Patient\",\"birthDate\":\"2000-06-15\"\x7d"

/-- A host JSON parser recognizing exactly that payload. -/
def jpPatient : String → Except String JsValue := fun s =>
  if s = patientLine then
    .ok (.obj [("resourceType", .str "Patient"), ("birthDate", .str "2000-06-15")])
  else .error "Unexpected token"

/-- The host at a clock reading of 2026-10-12. -/
def envClockA : JsEnv :=
  { jsonParse := jpPatient
    parseDate := fun s => if s = "2000-06-15" then some ⟨961027200000, 2000, 5, 15⟩ else none
    now := ⟨1760227200000, 2026, 9, 12⟩
    fmtDate := fun _ => "date"
    fmtMonthLabel := fun s => s }

/-- The same host one year later. -/
def envClockB : JsEnv := { envClockA with now := ⟨1791763200000, 2027, 9, 12⟩ }

/-- Counterexample to C8 as stated: the same input run through the same
host parser and formatters at two clock readings a year apart yields
different age statistics (mean 26 vs 27) — more than the elapsed-time field
differs, because `calculateAge` reads the current date for living
patients. -/
theorem pipeline_clock_counterexample :
    envClockA.jsonParse = envClockB.jsonParse
    ∧ envClockA.parseDate = envClockB.parseDate
    ∧ envClockA.fmtDate = envClockB.fmtDate
    ∧ envClockA.fmtMonthLabel = envClockB.fmtMonthLabel
    ∧ ¬ ((pipelinePatients envClockA (JNum.ofNat 0) patientLine).2.ageStats
        = (pipelinePatients envClockB (JNum.ofNat 0) patientLine).2.ageStats) := by
  refine ⟨rfl, rfl, rfl, rfl, ?_⟩
  decide

end FhirViz
